import Mathlib

/-
Verification of the minesweeper rule engine (src/src/main.rs) against its
natural-language specification.

The Rust code is shallowly embedded: Vec becomes List, u16 and u8 indices
become Nat, and every u16 computation that can wrap is modelled with an
explicit % 65536: the density-check products of generate_cells, the scan
upper bounds x + 2 and y + 2 of the neighbour window (which wrap to 0 and
1 at the coordinates 65534 and 65535, making the window empty there), and
the usize-to-u16 index casts of with_cells. Result becomes the Res type
below, and in-place mutation becomes explicit state passing. The two
recursive traversals (the reveal cascade and the chord scan) are general
recursion in Rust; they are embedded with an explicit fuel parameter, with
none meaning that the computation did not finish within the given fuel.
-/

namespace Minesweep

/-- Mirrors enum CellValue. Water is the non-mine ("Empty") content. -/
inductive CellValue : Type where
  | Mine : CellValue
  | Water : CellValue
deriving DecidableEq, Repr

/-- Mirrors struct Cell. -/
structure Cell : Type where
  value : CellValue
  opened : Bool
  flagged : Bool
deriving DecidableEq, Repr

/-- Mirrors enum MinesError. -/
inductive MinesError : Type where
  | MineOpened : MinesError
  | OutOfBounds : Nat → Nat → MinesError
  | EmptyField : MinesError
  | FieldTooSmall : Nat → Nat → MinesError
  | TooManyMines : MinesError
deriving DecidableEq, Repr

/-- Mirrors Result of Rust with the error type fixed to MinesError. -/
inductive Res (α : Type) : Type where
  | ok : α → Res α
  | error : MinesError → Res α
deriving DecidableEq, Repr

/-- Whether a Res is Ok. -/
def Res.isOk : Res α → Bool
  | .ok _ => true
  | .error _ => false

/-- Mirrors Cell::mine. -/
def Cell.mine : Cell := ⟨.Mine, false, false⟩

/-- Mirrors Cell::water. -/
def Cell.water : Cell := ⟨.Water, false, false⟩

/-- Mirrors Cell::open, returning the updated cell together with the result.
If the cell is not flagged it is marked opened, and the result is MineOpened
for a mine and Ok for water; a flagged cell is returned unchanged with Ok. -/
def Cell.openCell (c : Cell) : Cell × Res Unit :=
  if !c.flagged then
    ({ c with opened := true },
      match c.value with
      | .Mine => .error .MineOpened
      | .Water => .ok ())
  else (c, .ok ())

/-- Mirrors Cell::toggle_flag. -/
def Cell.toggle_flag (c : Cell) : Cell :=
  if !c.opened then { c with flagged := !c.flagged } else c

/-- Mirrors fn get_2d: index a Vec of Vecs, OutOfBounds when either index is
out of range. -/
def get_2d (v : List (List α)) (x y : Nat) : Res α :=
  match v[x]? with
  | some col =>
    match col[y]? with
    | some item => .ok item
    | none => .error (.OutOfBounds x y)
  | none => .error (.OutOfBounds x y)

/-- Replace the entry at (x, y); used to model mutation through get_mut. -/
def set_2d (v : List (List α)) (x y : Nat) (a : α) : List (List α) :=
  match v[x]? with
  | some col => v.set x (col.set y a)
  | none => v

/-- Mirrors fn min_coord: clamp the lower scan bound at 0. -/
def min_coord (c : Nat) : Nat :=
  if c > 0 then c - 1 else c

/-- The list of values of the Rust range a..b (empty when b ≤ a). -/
def rustRange (a b : Nat) : List Nat :=
  List.range' a (b - a)

/-- Truncation to u16, the coordinate type of the source: u16 arithmetic
wraps modulo 2^16 in release builds. -/
def w16 (n : Nat) : Nat := n % 65536

/-- The coordinate pairs scanned by the nested loops
for cx in min_coord(x)..x+2, for cy in min_coord(y)..y+2. The bounds
x + 2 and y + 2 are computed in u16, so they wrap at the top of the
coordinate range: at x = 65534 or 65535 the x range is empty and the
window is empty (likewise for y). This window includes (x, y) itself;
the callers that skip it do so explicitly. -/
def windowList (x y : Nat) : List (Nat × Nat) :=
  (rustRange (min_coord x) (w16 (x + 2))).flatMap fun cx =>
    (rustRange (min_coord y) (w16 (y + 2))).map fun cy => (cx, cy)

/-- Written from the specification wording: the 3x3 window around (x, y)
with the lower bound clamped at 0 and the upper bound x + 2 taken in
unbounded arithmetic. It agrees with windowList everywhere below the u16
boundary (x + 2 < 65536 and y + 2 < 65536), which covers every cell of
every board both dimensions of which are at most 65534. -/
def specWindow (x y : Nat) : List (Nat × Nat) :=
  (rustRange (min_coord x) (x + 2)).flatMap fun cx =>
    (rustRange (min_coord y) (y + 2)).map fun cy => (cx, cy)

/-- Mirrors fn do_with_neighbours specialized to its two callers, which count
the neighbours satisfying a predicate: scan the window, skip (x, y) itself,
skip out-of-bounds coordinates, and count the cells where pred holds. -/
def neighbourCount (cells : List (List Cell)) (x y : Nat) (pred : Cell → Bool) : Nat :=
  (windowList x y).foldl
    (fun acc p =>
      if p.1 = x ∧ p.2 = y then acc
      else
        match get_2d cells p.1 p.2 with
        | .ok c => if pred c then acc + 1 else acc
        | .error _ => acc)
    0

/-- Mirrors fn count_neighbours. -/
def count_neighbours (cells : List (List Cell)) (x y : Nat) : Res Nat :=
  if cells.isEmpty then .error .EmptyField
  else if cells.length ≤ x then .error (.OutOfBounds x y)
  else .ok (neighbourCount cells x y (fun c => c.value == .Mine))

/-- Mirrors struct Field. -/
structure Field : Type where
  cells : List (List Cell)
  numbers : List (List Nat)
deriving DecidableEq, Repr

/-- Mirrors Field::with_cells: store the cells and precompute the adjacent
mine count of every position. The enumerate indices are usize in the source
and are cast to u16 (x as u16, y as u16) before the count, hence the w16
truncation. In the source the count is unwrapped; inside this loop
count_neighbours never fails because w16 x is always in range (w16 x ≤ x)
and the grid is nonempty whenever the loop body runs, so the error arm is
dead. -/
def with_cells (cells : List (List Cell)) : Field :=
  { cells := cells
    numbers := cells.enum.map fun xc =>
      xc.2.enum.map fun yc =>
        match count_neighbours cells (w16 xc.1) (w16 yc.1) with
        | .ok n => n
        | .error _ => 0 }

/-- Mirrors Field::flag. -/
def Field.flag (f : Field) (x y : Nat) : Field × Res Unit :=
  match get_2d f.cells x y with
  | .error e => (f, .error e)
  | .ok c => ({ f with cells := set_2d f.cells x y c.toggle_flag }, .ok ())

/-- Mirrors Field::open with an explicit fuel for the recursive cascade;
none means the recursion did not finish within fuel. The source reads
self.numbers with unwrap inside the cascade test; a missing numbers entry
(impossible for fields built by with_cells, whose numbers grid has the same
shape as the cells grid) is modelled as not being 0, so no cascade. -/
def open_ : Nat → Field → Nat → Nat → Option (Field × Res Unit)
  | 0, _, _, _ => none
  | fuel + 1, f, x, y =>
    match get_2d f.cells x y with
    | .error e => some (f, .error e)
    | .ok c =>
      if c.opened then some (f, .ok ())
      else
        let f1 : Field := { f with cells := set_2d f.cells x y c.openCell.1 }
        match c.openCell.2 with
        | .error e => some (f1, .error e)
        | .ok _ =>
          match get_2d f.numbers x y with
          | .ok 0 =>
            match (windowList x y).foldl
                (fun acc p => acc.bind fun g => (open_ fuel g p.1 p.2).map Prod.fst)
                (some f1) with
            | none => none
            | some f2 => some (f2, .ok ())
          | _ => some (f1, .ok ())

/-- The cascade loop of Field::open: open every coordinate of the list in
order, discarding the per-cell results, propagating only fuel exhaustion. -/
def openList (fuel : Nat) (ps : List (Nat × Nat)) (f : Field) : Option Field :=
  ps.foldl (fun acc p => acc.bind fun g => (open_ fuel g p.1 p.2).map Prod.fst) (some f)

/-- The scan loop of Field::chord over the window around (x, y): re-check
bounds with get_2d and propagate OutOfBounds, skip opened or flagged cells,
open the rest and propagate any error. -/
def chordLoop (fuel : Nat) : List (Nat × Nat) → Field → Option (Field × Res Unit)
  | [], f => some (f, .ok ())
  | p :: rest, f =>
    match get_2d f.cells p.1 p.2 with
    | .error e => some (f, .error e)
    | .ok c =>
      if c.opened || c.flagged then chordLoop fuel rest f
      else
        match open_ fuel f p.1 p.2 with
        | none => none
        | some (g, .ok _) => chordLoop fuel rest g
        | some (g, .error e) => some (g, .error e)

/-- Mirrors Field::chord. -/
def chord (fuel : Nat) (f : Field) (x y : Nat) : Option (Field × Res Unit) :=
  match get_2d f.cells x y with
  | .error e => some (f, .error e)
  | .ok c =>
    if !c.opened then some (f, .ok ())
    else
      match get_2d f.numbers x y with
      | .error e => some (f, .error e)
      | .ok number =>
        let counter := neighbourCount f.cells x y (fun c => c.flagged)
        if number ≠ counter then some (f, .ok ())
        else
          match open_ fuel f x y with
          | none => none
          | some (f1, .error e) => some (f1, .error e)
          | some (f1, .ok _) => chordLoop fuel (windowList x y) f1

/-- Mirrors Field::is_won: true iff no water cell is unopened. -/
def is_won (f : Field) : Bool :=
  f.cells.all fun col => col.all fun c => !(c.value == .Water && !c.opened)

/-- Models the input validation prefix of fn generate_cells. The arguments
are u16 in the source, so the two products are computed modulo 65536 (u16
multiplication wraps in release builds). The random mine placement that
follows a successful validation is inherently nondeterministic and is not
modelled; ok means that validation passed and placement begins. -/
def generate_cells_checks (width height mines : Nat) : Res Unit :=
  if (width * height) % 65536 < (mines * 10) % 65536 then .error .TooManyMines
  else if width < 8 && height < 8 then .error (.FieldTooSmall width height)
  else .ok ()

section SanityChecks

example : windowList 0 0 = [(0, 0), (0, 1), (1, 0), (1, 1)] := by decide

example : windowList 2 1 =
    [(1, 0), (1, 1), (1, 2), (2, 0), (2, 1), (2, 2), (3, 0), (3, 1), (3, 2)] := by decide

example :
    (with_cells [[Cell.water, Cell.water, Cell.mine],
                 [Cell.mine, Cell.water, Cell.water],
                 [Cell.mine, Cell.water, Cell.mine]]).numbers =
      [[1, 2, 0], [1, 4, 2], [1, 3, 0]] := by decide

example :
    open_ 5 (with_cells [[Cell.water, Cell.mine], [Cell.water, Cell.water]]) 0 0 =
      some ({ cells := [[⟨.Water, true, false⟩, ⟨.Mine, false, false⟩],
                        [⟨.Water, false, false⟩, ⟨.Water, false, false⟩]],
              numbers := [[1, 0], [1, 1]] }, .ok ()) := by decide

end SanityChecks

/-- The opened flag of the cell at (x, y), false when out of bounds. -/
def openedAt (f : Field) (x y : Nat) : Bool :=
  match get_2d f.cells x y with
  | .ok c => c.opened
  | .error _ => false

/-- The flagged flag of the cell at (x, y), false when out of bounds. -/
def flaggedAt (f : Field) (x y : Nat) : Bool :=
  match get_2d f.cells x y with
  | .ok c => c.flagged
  | .error _ => false

/-- The content of the cell at (x, y), none when out of bounds. -/
def valueAt (f : Field) (x y : Nat) : Option CellValue :=
  match get_2d f.cells x y with
  | .ok c => some c.value
  | .error _ => none

/-- The precomputed adjacency number at (x, y), none when out of bounds. -/
def numberAt (f : Field) (x y : Nat) : Option Nat :=
  match get_2d f.numbers x y with
  | .ok n => some n
  | .error _ => none

/-- Per-cell evolution under play: content and flag are preserved and the
opened bit can only go from false to true. -/
def CellLe (c c' : Cell) : Prop :=
  c'.value = c.value ∧ c'.flagged = c.flagged ∧ (c.opened = true → c'.opened = true)

/-- Field evolution under the opening operations: the numbers grid is
unchanged, the grid shape is unchanged, and every cell evolves by CellLe. -/
def Evolves (f f' : Field) : Prop :=
  f'.numbers = f.numbers ∧
  ∀ x y, (∀ e, get_2d f.cells x y = .error e → get_2d f'.cells x y = .error e) ∧
         (∀ c, get_2d f.cells x y = .ok c → ∃ c', get_2d f'.cells x y = .ok c' ∧ CellLe c c')

/-- The combined per-coordinate predicate of the neighbour scan: not the
centre (x, y), in bounds, and the cell satisfies pred. -/
def scanPred (cells : List (List Cell)) (x y : Nat) (pred : Cell → Bool) (p : Nat × Nat) : Bool :=
  !decide (p.1 = x ∧ p.2 = y) &&
    (match get_2d cells p.1 p.2 with
     | .ok c => pred c
     | .error _ => false)

/-- The eight neighbour offsets named by the specification. -/
def specOffsets : List (Int × Int) :=
  [(-1, -1), (-1, 0), (-1, 1), (0, -1), (0, 1), (1, -1), (1, 0), (1, 1)]

/-- Written from the claim wording, for refinement comparison with the
window scan of the source: the 8-neighbour coordinates of (x, y) that have
nonnegative components (coordinates beyond the grid are filtered at lookup
time by isMineAt, so corner cells get 3 countable neighbours, edge cells 5,
interior cells 8). -/
def specNeighbours (x y : Nat) : List (Nat × Nat) :=
  specOffsets.filterMap fun d =>
    if 0 ≤ (x : Int) + d.1 ∧ 0 ≤ (y : Int) + d.2 then
      some (((x : Int) + d.1).toNat, ((y : Int) + d.2).toNat)
    else none

/-- Whether the cell at p is an in-bounds mine. -/
def isMineAt (cells : List (List Cell)) (p : Nat × Nat) : Bool :=
  match get_2d cells p.1 p.2 with
  | .ok c => c.value == .Mine
  | .error _ => false

/-- The specification count: the number of in-bounds Mine cells among the
8-neighbours of (x, y). -/
def specAdjMines (cells : List (List Cell)) (x y : Nat) : Nat :=
  (specNeighbours x y).countP (isMineAt cells)

/-- The number of unopened cells of the board, the termination measure of
the reveal cascade. -/
def unopenedCount (f : Field) : Nat :=
  (f.cells.map fun col => col.countP fun c => !c.opened).sum

/-- No flagged cell carries the stored number 0. This rules out the
divergence of the reveal cascade exhibited for C2 and C3: a flagged cell is
never opened, so if its number were 0 it would cascade into itself
forever. -/
def NoFlaggedZero (f : Field) : Prop :=
  ∀ x y, flaggedAt f x y = true → numberAt f x y ≠ some 0

/-- A 2-column, 1-row all-water board (both adjacency numbers are 0) with
the cell (0, 0) flagged; a reachable state: with_cells then flag(0, 0). -/
def divergeField2 : Field :=
  (Field.flag (with_cells [[Cell.water], [Cell.water]]) 0 0).1

/-- A 1x1 all-water board (adjacency number 0) with its only cell flagged;
a reachable state: with_cells then flag(0, 0). -/
def divergeField1 : Field :=
  (Field.flag (with_cells [[Cell.water]]) 0 0).1

/-- The 3x3 grid of the specification example: mines at (0,2), (1,0),
(2,0), (2,2), column-major (outer index x, inner index y). -/
def exampleGrid3 : List (List Cell) :=
  [[Cell.water, Cell.water, Cell.mine],
   [Cell.mine, Cell.water, Cell.water],
   [Cell.mine, Cell.water, Cell.mine]]

/-- A 65535x1 grid, a size the generator accepts (generate(65535, 1, m)
passes both validation checks for any m with 10*m at most 65535): water
everywhere except a mine at x = 65533. At x = 65534 the u16 scan bound
65534 + 2 wraps to 0, the scan range is empty, and the program stores
adjacency count 0 there although (65533, 0) is a mine neighbour. -/
def c4cGrid : List (List Cell) :=
  List.replicate 65533 [Cell.water] ++ [[Cell.mine], [Cell.water]]

/-- The numbers grid of the field is exactly the one with_cells computes
from its cells. Boards built by with_cells satisfy this, and every play
operation preserves it, because cell contents never change. -/
def CountsCorrect (f : Field) : Prop :=
  f.numbers = (with_cells f.cells).numbers

/-- Whether a result is the OutOfBounds error. -/
def isOOB : Res Unit → Bool
  | .error (.OutOfBounds _ _) => true
  | _ => false

/-- A 2x2 all-water board. -/
def allWater2 : Field :=
  with_cells [[Cell.water, Cell.water], [Cell.water, Cell.water]]

/-- A 3x3 all-water board. -/
def allWater3 : Field :=
  with_cells [[Cell.water, Cell.water, Cell.water],
              [Cell.water, Cell.water, Cell.water],
              [Cell.water, Cell.water, Cell.water]]

/-- The 2x2 all-water board after reveal(0, 0), which cascades over the
whole board; every cell ends revealed. -/
def c1Field : Field :=
  ((open_ 9 allWater2 0 0).getD (allWater2, .ok ())).1

/-- The outcome of a concrete reveal on the 2x2 all-water board. -/
def c1OpenOut : Field × Res Unit :=
  (open_ 9 allWater2 0 0).getD (allWater2, .ok ())

/-- A 4x4 grid with a single mine at (2, 0), used to exercise a chord that
hits a mine after an earlier neighbour has cascaded. -/
def c9Grid : List (List Cell) :=
  [[Cell.water, Cell.water, Cell.water, Cell.water],
   [Cell.water, Cell.water, Cell.water, Cell.water],
   [Cell.mine, Cell.water, Cell.water, Cell.water],
   [Cell.water, Cell.water, Cell.water, Cell.water]]

/-- The c9 board after flag(1, 0) and reveal(1, 1): the centre (1, 1) has
number 1 and exactly one flagged neighbour, so chord(1, 1) is satisfied. -/
def c9Start : Field :=
  ((open_ 99 ((Field.flag (with_cells c9Grid) 1 0).1) 1 1).getD
    (with_cells c9Grid, .ok ())).1

/-- The outcome of the satisfied chord(1, 1) on the c9 board. -/
def c9Out : Field × Res Unit :=
  (chord 99 c9Start 1 1).getD (c9Start, .ok ())

/-- A 3x3 grid with mines at (0, 0) and (0, 1), for the C5 witness. -/
def c5Grid : List (List Cell) :=
  [[Cell.mine, Cell.mine, Cell.water],
   [Cell.water, Cell.water, Cell.water],
   [Cell.water, Cell.water, Cell.water]]

/-- The c5 board after flag(0, 0), flag(0, 1) and reveal(1, 1): the interior
centre (1, 1) has number 2 and two flagged neighbours, so chord(1, 1) is
satisfied, and no flagged cell has number 0. -/
def c5Start : Field :=
  ((open_ 99 ((Field.flag ((Field.flag (with_cells c5Grid) 0 0).1) 0 1).1) 1 1).getD
    (with_cells c5Grid, .ok ())).1

/-- A 3x3 grid with one mine at (0, 1), for the C5 counterexample. -/
def c5cGrid : List (List Cell) :=
  [[Cell.water, Cell.mine, Cell.water],
   [Cell.water, Cell.water, Cell.water],
   [Cell.water, Cell.water, Cell.water]]

/-- The c5 counterexample board after flag(0, 1) and reveal(1, 2): the edge
cell (1, 2) is revealed and satisfied (number 1, one flagged neighbour). -/
def c5cStart : Field :=
  ((open_ 99 ((Field.flag (with_cells c5cGrid) 0 1).1) 1 2).getD
    (with_cells c5cGrid, .ok ())).1

/-- The outcome of the satisfied edge chord(1, 2) on the c5 counterexample
board. -/
def c5cOut : Field × Res Unit :=
  (chord 99 c5cStart 1 2).getD (c5cStart, .ok ())

/-- The result of a concrete reveal on the example board, used to witness
theorems that quantify over reveal outcomes. -/
def exampleOpenOut : Field × Res Unit :=
  (open_ 9 (with_cells exampleGrid3) 1 1).getD (with_cells exampleGrid3, .ok ())

/-- The result of a concrete chord on the example board, used to witness
theorems that quantify over chord outcomes. -/
def exampleChordOut : Field × Res Unit :=
  (chord 9 (with_cells exampleGrid3) 1 1).getD (with_cells exampleGrid3, .ok ())

/-- 8-adjacency of grid coordinates: distinct positions whose coordinates
differ by at most one in each component. -/
def adj8 (p q : Nat × Nat) : Prop :=
  p ≠ q ∧ p.1 ≤ q.1 + 1 ∧ q.1 ≤ p.1 + 1 ∧ p.2 ≤ q.2 + 1 ∧ q.2 ≤ p.2 + 1

/-- One step inside the zero-count region: both positions carry the stored
number 0 and are 8-adjacent. -/
def ZStep (f : Field) (p q : Nat × Nat) : Prop :=
  numberAt f p.1 p.2 = some 0 ∧ numberAt f q.1 q.2 = some 0 ∧ adj8 p q

/-- The 8-connected zero-count region grown from a start position, written
from the claim wording for comparison with the cascade of the source. -/
def zeroRegion (f : Field) (s p : Nat × Nat) : Prop :=
  Relation.ReflTransGen (ZStep f) s p

/-- One cascade step of the source: from a position whose stored number is
0 to any position of its scan window. -/
def CStep (f : Field) (a b : Nat × Nat) : Prop :=
  numberAt f a.1 a.2 = some 0 ∧ b ∈ windowList a.1 a.2

/-- No cell of the board is flagged. -/
def NoFlags (f : Field) : Prop :=
  ∀ x y, flaggedAt f x y = false

/-- A 4x1 board, column-major: water at x = 0, 1, 2 and a mine at x = 3,
so the stored numbers are 0, 0, 1, 0. -/
def c6cGrid : List (List Cell) :=
  [[Cell.water], [Cell.water], [Cell.water], [Cell.mine]]

/-- The c6 counterexample board: the 4x1 board with (2, 0) flagged; a
reachable state: with_cells then flag(2, 0). -/
def c6cStart : Field :=
  (Field.flag (with_cells c6cGrid) 2 0).1

/-- The outcome of reveal(0, 0) on the c6 counterexample board. -/
def c6cOut : Field × Res Unit :=
  (open_ 9 c6cStart 0 0).getD (c6cStart, .ok ())

/-- A fresh 3x3 all-water grid; every stored number is 0. -/
def c6wGrid : List (List Cell) :=
  [[Cell.water, Cell.water, Cell.water],
   [Cell.water, Cell.water, Cell.water],
   [Cell.water, Cell.water, Cell.water]]

section ListLemmas

theorem set_getElem?_eq_self (l : List α) (n : Nat) (a : α) (h : l[n]? = some a) :
    l.set n a = l := by
  induction l generalizing n with
  | nil => simp at h
  | cons b t ih =>
    cases n with
    | zero =>
      rw [List.getElem?_cons_zero] at h
      injection h with h
      rw [h]
      rfl
    | succ m =>
      rw [List.getElem?_cons_succ] at h
      rw [List.set_cons_succ, ih m h]

theorem get_2d_eq_ok {v : List (List α)} {x y : Nat} {a : α} :
    get_2d v x y = .ok a ↔ ∃ col, v[x]? = some col ∧ col[y]? = some a := by
  unfold get_2d
  cases hx : v[x]? with
  | none => simp
  | some col =>
    cases hy : col[y]? with
    | none => simp [hy]
    | some b => simp [hy]

theorem set_2d_self (v : List (List α)) (x y : Nat) (a : α)
    (h : get_2d v x y = .ok a) : set_2d v x y a = v := by
  obtain ⟨col, hx, hy⟩ := get_2d_eq_ok.mp h
  unfold set_2d
  rw [hx]
  show v.set x (col.set y a) = v
  rw [set_getElem?_eq_self col y a hy, set_getElem?_eq_self v x col hx]

theorem get_2d_col_none (v : List (List α)) (x y : Nat) (col : List α)
    (hx : v[x]? = some col) (hy : col[y]? = none) :
    get_2d v x y = .error (.OutOfBounds x y) := by
  unfold get_2d
  rw [hx]
  show (match col[y]? with
    | some item => Res.ok item
    | none => Res.error (.OutOfBounds x y)) = Res.error (.OutOfBounds x y)
  rw [hy]

theorem get_2d_row_none (v : List (List α)) (x y : Nat) (hx : v[x]? = none) :
    get_2d v x y = .error (.OutOfBounds x y) := by
  unfold get_2d
  rw [hx]

theorem isMineAt_ok (cells : List (List Cell)) (p : Nat × Nat) (c : Cell)
    (h : get_2d cells p.1 p.2 = .ok c) : isMineAt cells p = (c.value == .Mine) := by
  unfold isMineAt
  rw [h]

theorem isMineAt_error (cells : List (List Cell)) (p : Nat × Nat) (e : MinesError)
    (h : get_2d cells p.1 p.2 = .error e) : isMineAt cells p = false := by
  unfold isMineAt
  rw [h]

end ListLemmas

section StepLemmas

/-- One-step unfolding of open_, phrased with openList for the cascade and
the let for the updated field inlined. -/
theorem open_succ_eq (fuel : Nat) (f : Field) (x y : Nat) :
    open_ (fuel + 1) f x y =
      match get_2d f.cells x y with
      | .error e => some (f, .error e)
      | .ok c =>
        if c.opened then some (f, .ok ())
        else
          match c.openCell.2 with
          | .error e => some ({ f with cells := set_2d f.cells x y c.openCell.1 }, .error e)
          | .ok _ =>
            match get_2d f.numbers x y with
            | .ok 0 =>
              match openList fuel (windowList x y)
                  { f with cells := set_2d f.cells x y c.openCell.1 } with
              | none => none
              | some f2 => some (f2, .ok ())
            | _ => some ({ f with cells := set_2d f.cells x y c.openCell.1 }, .ok ()) := rfl

theorem openList_nil (fuel : Nat) (f : Field) : openList fuel [] f = some f := rfl

theorem foldl_openStep_none (fuel : Nat) (ps : List (Nat × Nat)) :
    ps.foldl (fun acc p => acc.bind fun g => (open_ fuel g p.1 p.2).map Prod.fst) none
      = none := by
  induction ps with
  | nil => rfl
  | cons p t ih => simpa using ih

theorem openList_cons (fuel : Nat) (p : Nat × Nat) (ps : List (Nat × Nat)) (f : Field) :
    openList fuel (p :: ps) f =
      match open_ fuel f p.1 p.2 with
      | none => none
      | some (g, _) => openList fuel ps g := by
  cases h : open_ fuel f p.1 p.2 with
  | none =>
    show List.foldl _ ((some f).bind _) ps = _
    rw [Option.some_bind, h, Option.map_none']
    exact foldl_openStep_none fuel ps
  | some gr =>
    obtain ⟨g, r⟩ := gr
    show List.foldl _ ((some f).bind _) ps = _
    rw [Option.some_bind, h, Option.map_some']
    rfl

/-- Unfolding of open_ on a flagged, unopened cell whose stored number is 0:
the cell itself is unchanged (Cell::open is a no-op on flagged cells) but
the cascade still runs over the whole window, including (x, y) itself. -/
theorem open_flagged_zero (fuel : Nat) (f : Field) (x y : Nat) (c : Cell)
    (hc : get_2d f.cells x y = .ok c) (hop : c.opened = false)
    (hfl : c.flagged = true) (hnum : get_2d f.numbers x y = .ok 0) :
    open_ (fuel + 1) f x y =
      match openList fuel (windowList x y) f with
      | none => none
      | some f2 => some (f2, .ok ()) := by
  have hcell : c.openCell = (c, .ok ()) := by
    simp [Cell.openCell, hfl]
  have hset : set_2d f.cells x y c = f.cells := set_2d_self f.cells x y c hc
  rw [open_succ_eq, hc]
  simp only [hop, Bool.false_eq_true, if_false, hcell, hset, hnum]

end StepLemmas

section WindowLemmas

theorem rustRange_succ_three (a : Nat) : rustRange a (a + 3) = [a, a + 1, a + 2] := by
  unfold rustRange
  rw [show a + 3 - a = 3 from by omega]
  rw [List.range'_succ, List.range'_succ, List.range'_succ]
  norm_num

theorem min_coord_succ (a : Nat) : min_coord (a + 1) = a := by
  simp [min_coord]

theorem min_coord_eq (c : Nat) : min_coord c = c - 1 := by
  unfold min_coord
  split <;> omega

theorem w16_eq {n : Nat} (h : n < 65536) : w16 n = n := Nat.mod_eq_of_lt h

theorem mod_sub_le (n m : Nat) (h : m ≤ n) : n % m ≤ n - m := by
  rw [Nat.mod_eq_sub_mod h]
  exact Nat.mod_le _ _

theorem rustRange_nil {a b : Nat} (h : b ≤ a) : rustRange a b = [] := by
  unfold rustRange
  rw [show b - a = 0 from by omega]
  rfl

/-- Below the u16 boundary the code window and the spec window agree. -/
theorem windowList_eq_specWindow {x y : Nat} (hx : x + 2 < 65536)
    (hy : y + 2 < 65536) : windowList x y = specWindow x y := by
  unfold windowList specWindow
  rw [w16_eq hx, w16_eq hy]

/-- At or above the u16 boundary the wrapped scan range is empty, so the
code window is empty. -/
theorem windowList_eq_nil_of_ge (x y : Nat)
    (h : ¬(x + 2 < 65536 ∧ y + 2 < 65536)) : windowList x y = [] := by
  by_cases hx : x + 2 < 65536
  · have hy : 65536 ≤ y + 2 := by omega
    have h1 : w16 (y + 2) ≤ y + 2 - 65536 := mod_sub_le (y + 2) 65536 hy
    have hyr : rustRange (min_coord y) (w16 (y + 2)) = [] := by
      refine rustRange_nil ?_
      rw [min_coord_eq]
      omega
    show (rustRange (min_coord x) (w16 (x + 2))).flatMap
        (fun cx => (rustRange (min_coord y) (w16 (y + 2))).map fun cy => (cx, cy)) = []
    rw [hyr]
    simp
  · have hx' : 65536 ≤ x + 2 := by omega
    have h1 : w16 (x + 2) ≤ x + 2 - 65536 := mod_sub_le (x + 2) 65536 hx'
    have hxr : rustRange (min_coord x) (w16 (x + 2)) = [] := by
      refine rustRange_nil ?_
      rw [min_coord_eq]
      omega
    show (rustRange (min_coord x) (w16 (x + 2))).flatMap
        (fun cx => (rustRange (min_coord y) (w16 (y + 2))).map fun cy => (cx, cy)) = []
    rw [hxr]
    rfl

/-- A nonempty code window only exists below the u16 boundary. -/
theorem windowList_nonempty_small {x y : Nat} {p : Nat × Nat}
    (h : p ∈ windowList x y) : x + 2 < 65536 ∧ y + 2 < 65536 := by
  by_cases hs : x + 2 < 65536 ∧ y + 2 < 65536
  · exact hs
  · rw [windowList_eq_nil_of_ge x y hs] at h
    cases h

/-- Every coordinate the code scans lies in the spec window. -/
theorem mem_windowList_mem_specWindow {x y : Nat} {p : Nat × Nat}
    (h : p ∈ windowList x y) : p ∈ specWindow x y := by
  have hs := windowList_nonempty_small h
  rw [windowList_eq_specWindow hs.1 hs.2] at h
  exact h

theorem specWindow_zero_succ (b : Nat) :
    specWindow 0 (b + 1) =
      [(0, b), (0, b + 1), (0, b + 2), (1, b), (1, b + 1), (1, b + 2)] := by
  unfold specWindow
  rw [min_coord_succ, show b + 1 + 2 = b + 3 from by omega, rustRange_succ_three]
  rw [show rustRange (min_coord 0) (0 + 2) = [0, 1] from by decide]
  simp

theorem specWindow_succ_zero (a : Nat) :
    specWindow (a + 1) 0 =
      [(a, 0), (a, 1), (a + 1, 0), (a + 1, 1), (a + 2, 0), (a + 2, 1)] := by
  unfold specWindow
  rw [min_coord_succ, show a + 1 + 2 = a + 3 from by omega, rustRange_succ_three]
  rw [show rustRange (min_coord 0) (0 + 2) = [0, 1] from by decide]
  simp

theorem specWindow_succ_succ (a b : Nat) :
    specWindow (a + 1) (b + 1) =
      [(a, b), (a, b + 1), (a, b + 2), (a + 1, b), (a + 1, b + 1), (a + 1, b + 2),
       (a + 2, b), (a + 2, b + 1), (a + 2, b + 2)] := by
  unfold specWindow
  rw [min_coord_succ, min_coord_succ, show a + 1 + 2 = a + 3 from by omega,
    show b + 1 + 2 = b + 3 from by omega, rustRange_succ_three, rustRange_succ_three]
  simp

theorem specNeighbours_zero_succ (b : Nat) :
    specNeighbours 0 (b + 1) = [(0, b), (0, b + 2), (1, b), (1, b + 1), (1, b + 2)] := by
  unfold specNeighbours specOffsets
  norm_num [List.filterMap_cons,
    show ∀ n : Nat, (0:Int) ≤ (n:Int) + 1 from fun n => by positivity,
    show ∀ n : Nat, (0:Int) ≤ (n:Int) + 1 + 1 from fun n => by positivity,
    show ∀ n : Nat, ((n:Int) + 1 + 1).toNat = n + 2 from fun n => by omega]

theorem specNeighbours_succ_zero (a : Nat) :
    specNeighbours (a + 1) 0 = [(a, 0), (a, 1), (a + 1, 1), (a + 2, 0), (a + 2, 1)] := by
  unfold specNeighbours specOffsets
  norm_num [List.filterMap_cons,
    show ∀ n : Nat, (0:Int) ≤ (n:Int) + 1 from fun n => by positivity,
    show ∀ n : Nat, (0:Int) ≤ (n:Int) + 1 + 1 from fun n => by positivity,
    show ∀ n : Nat, ((n:Int) + 1 + 1).toNat = n + 2 from fun n => by omega]

theorem specNeighbours_succ_succ (a b : Nat) :
    specNeighbours (a + 1) (b + 1) =
      [(a, b), (a, b + 1), (a, b + 2), (a + 1, b), (a + 1, b + 2),
       (a + 2, b), (a + 2, b + 1), (a + 2, b + 2)] := by
  unfold specNeighbours specOffsets
  norm_num [List.filterMap_cons,
    show ∀ n : Nat, (0:Int) ≤ (n:Int) + 1 from fun n => by positivity,
    show ∀ n : Nat, (0:Int) ≤ (n:Int) + 1 + 1 from fun n => by positivity,
    show ∀ n : Nat, ((n:Int) + 1 + 1).toNat = n + 2 from fun n => by omega]

end WindowLemmas

section CountLemmas

theorem foldl_scan_eq_countP (cells : List (List Cell)) (x y : Nat) (pred : Cell → Bool) :
    ∀ (l : List (Nat × Nat)) (acc : Nat),
      l.foldl
        (fun acc p =>
          if p.1 = x ∧ p.2 = y then acc
          else
            match get_2d cells p.1 p.2 with
            | .ok c => if pred c then acc + 1 else acc
            | .error _ => acc)
        acc = acc + l.countP (scanPred cells x y pred) := by
  intro l
  induction l with
  | nil => intro acc; simp
  | cons p t ih =>
    intro acc
    rw [List.foldl_cons, List.countP_cons, ih]
    have hstep :
        (if p.1 = x ∧ p.2 = y then acc
         else
           match get_2d cells p.1 p.2 with
           | .ok c => if pred c then acc + 1 else acc
           | .error _ => acc) =
          acc + if scanPred cells x y pred p then 1 else 0 := by
      by_cases hself : p.1 = x ∧ p.2 = y
      · rw [if_pos hself]
        simp [scanPred, hself]
      · rw [if_neg hself]
        cases hg : get_2d cells p.1 p.2 with
        | ok c =>
          by_cases hp : pred c
          · simp [scanPred, hself, hg, hp]
          · simp [scanPred, hself, hg, hp]
        | error e => simp [scanPred, hself, hg]
    rw [hstep]
    omega

theorem neighbourCount_eq_countP (cells : List (List Cell)) (x y : Nat) (pred : Cell → Bool) :
    neighbourCount cells x y pred = (windowList x y).countP (scanPred cells x y pred) := by
  unfold neighbourCount
  rw [foldl_scan_eq_countP]
  omega

theorem countP_scan_mine_eq_spec (cells : List (List Cell)) (x y : Nat) :
    (specWindow x y).countP (scanPred cells x y (fun c => c.value == .Mine)) =
      (specNeighbours x y).countP (isMineAt cells) := by
  cases x with
  | zero =>
    cases y with
    | zero =>
      rw [show specWindow 0 0 = [(0, 0), (0, 1), (1, 0), (1, 1)] from by decide,
        show specNeighbours 0 0 = [(0, 1), (1, 0), (1, 1)] from by decide]
      simp [List.countP_cons, scanPred, isMineAt]
    | succ b =>
      rw [specWindow_zero_succ, specNeighbours_zero_succ]
      simp [List.countP_cons, scanPred, isMineAt]
  | succ a =>
    cases y with
    | zero =>
      rw [specWindow_succ_zero, specNeighbours_succ_zero]
      simp [List.countP_cons, scanPred, isMineAt]
    | succ b =>
      rw [specWindow_succ_succ, specNeighbours_succ_succ]
      simp [List.countP_cons, scanPred, isMineAt]

/-- Below the u16 boundary, the code's scan count equals the exact
specification count; the boundary hypotheses are necessary, because at
x = 65534 the wrapped scan range is empty (see c4_counterexample). -/
theorem neighbourCount_mine_eq_specAdjMines (cells : List (List Cell)) (x y : Nat)
    (hx : x + 2 < 65536) (hy : y + 2 < 65536) :
    neighbourCount cells x y (fun c => c.value == .Mine) = specAdjMines cells x y := by
  rw [neighbourCount_eq_countP, windowList_eq_specWindow hx hy,
    countP_scan_mine_eq_spec]
  rfl

theorem with_cells_numbers_at (cells : List (List Cell)) (x y : Nat) (c : Cell)
    (h : get_2d cells x y = .ok c) :
    get_2d (with_cells cells).numbers x y =
      .ok (neighbourCount cells (w16 x) (w16 y) (fun c => c.value == .Mine)) := by
  obtain ⟨col, hx, hy⟩ := get_2d_eq_ok.mp h
  have hxl : x < cells.length := by
    obtain ⟨hl, _⟩ := List.getElem?_eq_some_iff.mp hx
    exact hl
  have hne : cells.isEmpty = false := by
    cases cells with
    | nil => simp at hxl
    | cons u v => rfl
  have h1 : (with_cells cells).numbers[x]? =
      some (col.enum.map fun yc =>
        match count_neighbours cells (w16 x) (w16 yc.1) with
        | .ok n => n
        | .error _ => 0) := by
    show (cells.enum.map _)[x]? = _
    rw [List.getElem?_map, List.getElem?_enum, hx]
    rfl
  have h2 : (col.enum.map fun yc =>
      match count_neighbours cells (w16 x) (w16 yc.1) with
      | .ok n => n
      | .error _ => 0)[y]? =
        some (match count_neighbours cells (w16 x) (w16 y) with
        | .ok n => n
        | .error _ => 0) := by
    rw [List.getElem?_map, List.getElem?_enum, hy]
    rfl
  have h3 : count_neighbours cells (w16 x) (w16 y) =
      .ok (neighbourCount cells (w16 x) (w16 y) (fun c => c.value == .Mine)) := by
    have hwx : w16 x ≤ x := Nat.mod_le x 65536
    unfold count_neighbours
    rw [hne]
    rw [if_neg (by simp)]
    rw [if_neg (by omega)]
  unfold get_2d
  simp only [h1, h2, h3]

end CountLemmas

section EvolvesLemmas

theorem get_2d_set_2d_self {v : List (List α)} {x y : Nat} {b : α} (a : α)
    (h : get_2d v x y = .ok b) : get_2d (set_2d v x y a) x y = .ok a := by
  obtain ⟨col, hx, hy⟩ := get_2d_eq_ok.mp h
  have hxl : x < v.length := (List.getElem?_eq_some_iff.mp hx).1
  have hyl : y < col.length := (List.getElem?_eq_some_iff.mp hy).1
  unfold set_2d
  rw [hx]
  show get_2d (v.set x (col.set y a)) x y = .ok a
  rw [get_2d_eq_ok]
  exact ⟨col.set y a, by rw [List.getElem?_set_self hxl], by rw [List.getElem?_set_self hyl]⟩

theorem get_2d_set_2d_ne {v : List (List α)} {x y : Nat} {b : α} (a : α) (i j : Nat)
    (h : get_2d v x y = .ok b) (hne : ¬(x = i ∧ y = j)) :
    get_2d (set_2d v x y a) i j = get_2d v i j := by
  obtain ⟨col, hx, hy⟩ := get_2d_eq_ok.mp h
  unfold set_2d
  rw [hx]
  show get_2d (v.set x (col.set y a)) i j = get_2d v i j
  by_cases hxi : x = i
  · subst hxi
    have hyj : y ≠ j := fun hc => hne ⟨rfl, hc⟩
    unfold get_2d
    rw [List.getElem?_set_self (List.getElem?_eq_some_iff.mp hx).1, hx]
    show (match (col.set y a)[j]? with
      | some item => (Res.ok item : Res α)
      | none => .error (.OutOfBounds x j)) =
        match col[j]? with
        | some item => .ok item
        | none => .error (.OutOfBounds x j)
    rw [List.getElem?_set_ne hyj]
  · unfold get_2d
    rw [List.getElem?_set_ne hxi]

theorem cellLe_refl (c : Cell) : CellLe c c := ⟨rfl, rfl, id⟩

theorem cellLe_trans {c c' c'' : Cell} (h1 : CellLe c c') (h2 : CellLe c' c'') :
    CellLe c c'' :=
  ⟨h2.1.trans h1.1, h2.2.1.trans h1.2.1, fun h => h2.2.2 (h1.2.2 h)⟩

theorem cellLe_openCell (c : Cell) : CellLe c c.openCell.1 := by
  unfold Cell.openCell
  by_cases hf : c.flagged
  · simp [hf]
    exact cellLe_refl c
  · simp [hf, CellLe]

theorem evolves_refl (f : Field) : Evolves f f :=
  ⟨rfl, fun _ _ => ⟨fun _ h => h, fun c h => ⟨c, h, cellLe_refl c⟩⟩⟩

theorem evolves_trans {f g h : Field} (h1 : Evolves f g) (h2 : Evolves g h) :
    Evolves f h := by
  refine ⟨h2.1.trans h1.1, fun x y => ⟨fun e he => ?_, fun c hc => ?_⟩⟩
  · exact (h2.2 x y).1 e ((h1.2 x y).1 e he)
  · obtain ⟨c', hc', hle⟩ := (h1.2 x y).2 c hc
    obtain ⟨c'', hc'', hle'⟩ := (h2.2 x y).2 c' hc'
    exact ⟨c'', hc'', cellLe_trans hle hle'⟩

theorem evolves_set_cell (f : Field) (x y : Nat) (c c' : Cell)
    (hc : get_2d f.cells x y = .ok c) (hle : CellLe c c') :
    Evolves f { f with cells := set_2d f.cells x y c' } := by
  refine ⟨rfl, fun i j => ⟨?_, ?_⟩⟩
  · intro e he
    have hne : ¬(x = i ∧ y = j) := by
      rintro ⟨rfl, rfl⟩
      rw [hc] at he
      cases he
    show get_2d (set_2d f.cells x y c') i j = .error e
    rw [get_2d_set_2d_ne c' i j hc hne]
    exact he
  · intro d hd
    by_cases hij : x = i ∧ y = j
    · obtain ⟨rfl, rfl⟩ := hij
      rw [hc] at hd
      cases hd
      exact ⟨c', get_2d_set_2d_self c' hc, hle⟩
    · refine ⟨d, ?_, cellLe_refl d⟩
      show get_2d (set_2d f.cells x y c') i j = .ok d
      rw [get_2d_set_2d_ne c' i j hc hij]
      exact hd

theorem open_evolves_all : ∀ fuel : Nat,
    (∀ f x y out, open_ fuel f x y = some out → Evolves f out.1) ∧
    (∀ ps f g, openList fuel ps f = some g → Evolves f g) := by
  intro fuel
  induction fuel with
  | zero =>
    constructor
    · intro f x y out h
      exact absurd h (by rw [show open_ 0 f x y = none from rfl]; simp)
    · intro ps
      induction ps with
      | nil =>
        intro f g h
        rw [openList_nil] at h
        cases h
        exact evolves_refl f
      | cons p t iht =>
        intro f g h
        rw [openList_cons, show open_ 0 f p.1 p.2 = none from rfl] at h
        simp at h
  | succ n ih =>
    have hopen : ∀ f x y out, open_ (n + 1) f x y = some out → Evolves f out.1 := by
      intro f x y out h
      rw [open_succ_eq] at h
      split at h
      · cases h
        exact evolves_refl f
      · rename_i c hg
        have hev1 : Evolves f { f with cells := set_2d f.cells x y c.openCell.1 } :=
          evolves_set_cell f x y c c.openCell.1 hg (cellLe_openCell c)
        split at h
        · cases h
          exact evolves_refl f
        · split at h
          · cases h
            exact hev1
          · split at h
            · split at h
              · cases h
              · rename_i f2 hol
                cases h
                exact evolves_trans hev1 (ih.2 _ _ _ hol)
            · cases h
              exact hev1
    refine ⟨hopen, ?_⟩
    intro ps
    induction ps with
    | nil =>
      intro f g h
      rw [openList_nil] at h
      cases h
      exact evolves_refl f
    | cons p t iht =>
      intro f g h
      rw [openList_cons] at h
      cases ho : open_ (n + 1) f p.1 p.2 with
      | none => rw [ho] at h; simp at h
      | some f1r =>
        obtain ⟨f1, r⟩ := f1r
        rw [ho] at h
        exact evolves_trans (hopen f p.1 p.2 (f1, r) ho) (iht f1 g h)

theorem open_evolves {fuel : Nat} {f : Field} {x y : Nat} {out : Field × Res Unit}
    (h : open_ fuel f x y = some out) : Evolves f out.1 :=
  (open_evolves_all fuel).1 f x y out h

theorem openList_evolves {fuel : Nat} {ps : List (Nat × Nat)} {f g : Field}
    (h : openList fuel ps f = some g) : Evolves f g :=
  (open_evolves_all fuel).2 ps f g h

theorem chordLoop_nil (fuel : Nat) (f : Field) :
    chordLoop fuel [] f = some (f, .ok ()) := rfl

theorem chordLoop_cons (fuel : Nat) (p : Nat × Nat) (t : List (Nat × Nat)) (f : Field) :
    chordLoop fuel (p :: t) f =
      match get_2d f.cells p.1 p.2 with
      | .error e => some (f, .error e)
      | .ok c =>
        if c.opened || c.flagged then chordLoop fuel t f
        else
          match open_ fuel f p.1 p.2 with
          | none => none
          | some (g, .ok _) => chordLoop fuel t g
          | some (g, .error e) => some (g, .error e) := rfl

theorem chordLoop_evolves : ∀ (ps : List (Nat × Nat)) (fuel : Nat) (f : Field) out,
    chordLoop fuel ps f = some out → Evolves f out.1 := by
  intro ps
  induction ps with
  | nil =>
    intro fuel f out h
    rw [chordLoop_nil] at h
    cases h
    exact evolves_refl f
  | cons p t iht =>
    intro fuel f out h
    rw [chordLoop_cons] at h
    split at h
    · cases h
      exact evolves_refl f
    · split at h
      · exact iht fuel f out h
      · split at h
        · cases h
        · rename_i g u ho
          exact evolves_trans (open_evolves ho) (iht fuel g out h)
        · rename_i g e ho
          cases h
          exact open_evolves ho

/-- One-step unfolding of chord with the let for the flagged-neighbour
counter inlined. -/
theorem chord_eq (fuel : Nat) (f : Field) (x y : Nat) :
    chord fuel f x y =
      match get_2d f.cells x y with
      | .error e => some (f, .error e)
      | .ok c =>
        if !c.opened then some (f, .ok ())
        else
          match get_2d f.numbers x y with
          | .error e => some (f, .error e)
          | .ok number =>
            if number ≠ neighbourCount f.cells x y (fun c => c.flagged) then
              some (f, .ok ())
            else
              match open_ fuel f x y with
              | none => none
              | some (f1, .error e) => some (f1, .error e)
              | some (f1, .ok _) => chordLoop fuel (windowList x y) f1 := rfl

theorem chord_evolves {fuel : Nat} {f : Field} {x y : Nat} {out : Field × Res Unit}
    (h : chord fuel f x y = some out) : Evolves f out.1 := by
  rw [chord_eq] at h
  split at h
  · cases h
    exact evolves_refl f
  · split at h
    · cases h
      exact evolves_refl f
    · split at h
      · cases h
        exact evolves_refl f
      · split at h
        · cases h
          exact evolves_refl f
        · split at h
          · cases h
          · rename_i f1 e ho
            cases h
            exact open_evolves ho
          · rename_i f1 u ho
            exact evolves_trans (open_evolves ho) (chordLoop_evolves _ _ _ _ h)

theorem flag_numbers_eq (f : Field) (x y : Nat) :
    ((Field.flag f x y).1).numbers = f.numbers := by
  unfold Field.flag
  cases hg : get_2d f.cells x y with
  | error e => rfl
  | ok c => rfl

theorem isOk_iff {α : Type} {r : Res α} : r.isOk = true ↔ ∃ a, r = .ok a := by
  cases r <;> simp [Res.isOk]

theorem evolves_isOk {f g : Field} (h : Evolves f g) (x y : Nat)
    (hc : (get_2d f.cells x y).isOk = true) : (get_2d g.cells x y).isOk = true := by
  obtain ⟨c, hc'⟩ := isOk_iff.mp hc
  obtain ⟨c', hg', _⟩ := (h.2 x y).2 c hc'
  rw [hg']
  rfl

end EvolvesLemmas

section NoOobLemmas

theorem cellOpen_snd (c : Cell) :
    c.openCell.2 = .ok () ∨ c.openCell.2 = .error .MineOpened := by
  unfold Cell.openCell
  by_cases hf : c.flagged
  · simp [hf]
  · cases hv : c.value <;> simp [hf, hv]

theorem open_no_oob : ∀ (fuel : Nat) (f : Field) (x y : Nat) (c : Cell) out,
    get_2d f.cells x y = .ok c → open_ fuel f x y = some out → isOOB out.2 = false := by
  intro fuel f x y c out hc h
  cases fuel with
  | zero => exact absurd h (by rw [show open_ 0 f x y = none from rfl]; simp)
  | succ n =>
    rw [open_succ_eq] at h
    split at h
    · rename_i e heq
      rw [hc] at heq
      cases heq
    · rename_i c' hg
      split at h
      · cases h
        rfl
      · split at h
        · rename_i e hoc
          cases h
          rcases cellOpen_snd c' with hok | herr

          · rw [hoc] at hok
            simp at hok
          · rw [hoc] at herr
            injection herr with he
            rw [he]
            rfl
        · split at h
          · split at h
            · cases h
            · cases h
              rfl
          · cases h
            rfl

theorem chordLoop_no_oob : ∀ (ps : List (Nat × Nat)) (fuel : Nat) (f : Field) out,
    (∀ p ∈ ps, (get_2d f.cells p.1 p.2).isOk = true) →
    chordLoop fuel ps f = some out → isOOB out.2 = false := by
  intro ps
  induction ps with
  | nil =>
    intro fuel f out hin h
    rw [chordLoop_nil] at h
    cases h
    rfl
  | cons p t iht =>
    intro fuel f out hin h
    rw [chordLoop_cons] at h
    split at h
    · rename_i e heq
      have := hin p (by simp)
      rw [heq] at this
      simp [Res.isOk] at this
    · rename_i c hg
      split at h
      · exact iht fuel f out (fun q hq => hin q (by simp [hq])) h
      · split at h
        · cases h
        · rename_i g u ho
          refine iht fuel g out (fun q hq => ?_) h
          exact evolves_isOk (open_evolves ho) q.1 q.2 (hin q (by simp [hq]))
        · rename_i g e ho
          cases h
          exact open_no_oob fuel f p.1 p.2 c (g, .error e) hg ho

theorem chord_no_oob : ∀ (fuel : Nat) (f : Field) (x y : Nat) (n : Nat) out,
    get_2d f.numbers x y = .ok n →
    (∀ p ∈ specWindow x y, (get_2d f.cells p.1 p.2).isOk = true) →
    chord fuel f x y = some out → isOOB out.2 = false := by
  intro fuel f x y n out hn hwin h
  have hcen : (get_2d f.cells x y).isOk = true := by
    refine hwin (x, y) ?_
    unfold specWindow rustRange
    have hmem : ∀ c : Nat, c ∈ List.range' (min_coord c) (c + 2 - min_coord c) := by
      intro c
      rw [List.mem_range']
      refine ⟨c - min_coord c, ?_, ?_⟩ <;> unfold min_coord <;> split <;> omega
    have h1 := hmem x
    have h2 := hmem y
    rw [List.mem_flatMap]
    exact ⟨x, h1, List.mem_map.mpr ⟨y, h2, rfl⟩⟩
  obtain ⟨c, hc⟩ := isOk_iff.mp hcen
  rw [chord_eq] at h
  split at h
  · rename_i e heq
    rw [hc] at heq
    cases heq
  · split at h
    · cases h
      rfl
    · rename_i c' hg
      split at h
      · rename_i e heq
        rw [hn] at heq
        cases heq
      · split at h
        · cases h
          rfl
        · split at h
          · cases h
          · rename_i f1 e ho
            cases h
            exact open_no_oob fuel f x y c (f1, .error e) hc ho
          · rename_i f1 u ho
            refine chordLoop_no_oob (windowList x y) fuel f1 out (fun q hq => ?_) h
            exact evolves_isOk (open_evolves ho) q.1 q.2
              (hwin q (mem_windowList_mem_specWindow hq))

end NoOobLemmas

section ErrorCharacterisation

theorem get_2d_error {v : List (List α)} {x y : Nat} {e : MinesError}
    (h : get_2d v x y = .error e) : e = .OutOfBounds x y := by
  unfold get_2d at h
  split at h
  · split at h
    · cases h
    · cases h
      rfl
  · cases h
    rfl

theorem cellOpen_flagged (c : Cell) (hf : c.flagged = true) : c.openCell = (c, .ok ()) := by
  simp [Cell.openCell, hf]

theorem cellOpen_unflagged (c : Cell) (hf : c.flagged = false) :
    c.openCell = ({ c with opened := true },
      match c.value with
      | .Mine => .error .MineOpened
      | .Water => .ok ()) := by
  simp [Cell.openCell, hf]

theorem Evolves.flaggedAt_eq {f g : Field} (h : Evolves f g) (x y : Nat) :
    flaggedAt g x y = flaggedAt f x y := by
  unfold flaggedAt
  cases hc : get_2d f.cells x y with
  | ok c =>
    obtain ⟨c', hc', hle⟩ := (h.2 x y).2 c hc
    rw [hc']
    exact hle.2.1
  | error e =>
    rw [(h.2 x y).1 e hc]

theorem Evolves.valueAt_eq {f g : Field} (h : Evolves f g) (x y : Nat) :
    valueAt g x y = valueAt f x y := by
  unfold valueAt
  cases hc : get_2d f.cells x y with
  | ok c =>
    obtain ⟨c', hc', hle⟩ := (h.2 x y).2 c hc
    rw [hc']
    show some c'.value = some c.value
    rw [hle.1]
  | error e =>
    rw [(h.2 x y).1 e hc]

theorem Evolves.openedAt_mono {f g : Field} (h : Evolves f g) (x y : Nat)
    (ho : openedAt f x y = true) : openedAt g x y = true := by
  unfold openedAt at ho ⊢
  cases hc : get_2d f.cells x y with
  | ok c =>
    obtain ⟨c', hc', hle⟩ := (h.2 x y).2 c hc
    rw [hc']
    rw [hc] at ho
    exact hle.2.2 ho
  | error e =>
    rw [hc] at ho
    cases ho

theorem Evolves.openedAt_back {f g : Field} (h : Evolves f g) (x y : Nat)
    (ho : openedAt g x y = false) : openedAt f x y = false := by
  cases hc : openedAt f x y with
  | false => rfl
  | true => rw [h.openedAt_mono x y hc] at ho; cases ho

/-- Opening an already-revealed cell is a no-op returning Ok. -/
theorem open_opened (fuel : Nat) (f : Field) (x y : Nat) (c : Cell)
    (hc : get_2d f.cells x y = .ok c) (hop : c.opened = true) :
    open_ (fuel + 1) f x y = some (f, .ok ()) := by
  rw [open_succ_eq, hc]
  split
  · rename_i e heq
    cases heq
  · rename_i c2 heq
    injection heq with h2
    subst h2
    split
    · rfl
    · rename_i hneg
      exact absurd hop hneg

/-- A top-level error of open_ on an in-bounds cell is MineOpened, and it
happens exactly by opening an unflagged, unrevealed mine at the target,
which ends revealed. -/
theorem open_error (fuel : Nat) (f : Field) (x y : Nat) (out : Field × Res Unit)
    (h : open_ fuel f x y = some out) (e : MinesError) (he : out.2 = .error e)
    (c : Cell) (hc : get_2d f.cells x y = .ok c) :
    e = .MineOpened ∧ valueAt f x y = some .Mine ∧ flaggedAt f x y = false ∧
      openedAt f x y = false ∧ openedAt out.1 x y = true := by
  cases fuel with
  | zero => exact absurd h (by rw [show open_ 0 f x y = none from rfl]; simp)
  | succ n =>
    rw [open_succ_eq] at h
    split at h
    · rename_i e' heq
      rw [hc] at heq
      cases heq
    · rename_i c' hg
      have hcc : c' = c := by
        rw [hg] at hc
        exact Res.ok.inj hc
      subst hcc
      split at h
      · cases h
        simp at he
      · rename_i hop
        have hopf : c'.opened = false := by
          cases hcv : c'.opened with
          | false => rfl
          | true => exact absurd hcv hop
        split at h
        · rename_i e' hoc
          cases h
          have he' : e' = e := by
            injection he
          have hfl : c'.flagged = false := by
            cases hfv : c'.flagged with
            | false => rfl
            | true =>
              rw [cellOpen_flagged c' hfv] at hoc
              cases hoc
          rw [cellOpen_unflagged c' hfl] at hoc
          have hoc2 : (match c'.value with
              | CellValue.Mine => (Res.error .MineOpened : Res Unit)
              | CellValue.Water => .ok ()) = .error e' := hoc
          have hmine : c'.value = .Mine := by
            cases hv : c'.value with
            | Mine => rfl
            | Water => rw [hv] at hoc2; cases hoc2
          have hemo : e = .MineOpened := by
            rw [hmine] at hoc2
            have h3 : e' = .MineOpened := (Res.error.inj hoc2).symm
            rw [← he', h3]
          refine ⟨hemo, ?_, ?_, ?_, ?_⟩
          · unfold valueAt
            rw [hg]
            show some c'.value = some CellValue.Mine
            rw [hmine]
          · unfold flaggedAt
            rw [hg]
            exact hfl
          · unfold openedAt
            rw [hg]
            exact hopf
          · show openedAt { f with cells := set_2d f.cells x y c'.openCell.1 } x y = true
            unfold openedAt
            rw [show get_2d (set_2d f.cells x y c'.openCell.1) x y = .ok c'.openCell.1 from
              get_2d_set_2d_self c'.openCell.1 hg]
            show c'.openCell.1.opened = true
            rw [cellOpen_unflagged c' hfl]
        · split at h
          · split at h
            · cases h
            · cases h
              simp at he
          · cases h
            simp at he

/-- If the chord scan over ps returns MineOpened, some coordinate of ps was
an unflagged, unrevealed in-bounds mine at scan entry, and it ends
revealed. -/
theorem chordLoop_mineopened : ∀ (ps : List (Nat × Nat)) (fuel : Nat) (f : Field) out,
    chordLoop fuel ps f = some out → out.2 = .error .MineOpened →
    ∃ p ∈ ps, valueAt f p.1 p.2 = some .Mine ∧ flaggedAt f p.1 p.2 = false ∧
      openedAt f p.1 p.2 = false ∧ openedAt out.1 p.1 p.2 = true := by
  intro ps
  induction ps with
  | nil =>
    intro fuel f out h he
    rw [chordLoop_nil] at h
    cases h
    simp at he
  | cons p t iht =>
    intro fuel f out h he
    rw [chordLoop_cons] at h
    split at h
    · rename_i e heq
      cases h
      simp only at he
      injection he with he'
      rw [get_2d_error heq] at he'
      cases he'
    · rename_i c hg
      split at h
      · obtain ⟨q, hq, hprops⟩ := iht fuel f out h he
        exact ⟨q, by simp [hq], hprops⟩
      · split at h
        · cases h
        · rename_i g u ho
          obtain ⟨q, hq, hv, hf, hof, hoo⟩ := iht fuel g out h he
          have hev := open_evolves ho
          refine ⟨q, by simp [hq], ?_, ?_, ?_, hoo⟩
          · rw [← hev.valueAt_eq q.1 q.2]
            exact hv
          · rw [← hev.flaggedAt_eq q.1 q.2]
            exact hf
          · exact hev.openedAt_back q.1 q.2 hof
        · rename_i g e ho
          cases h
          simp only at he
          injection he with he'
          subst he'
          obtain ⟨_, hv, hf, hof, hoo⟩ :=
            open_error fuel f p.1 p.2 (g, .error .MineOpened) ho .MineOpened rfl c hg
          exact ⟨p, by simp, hv, hf, hof, hoo⟩

end ErrorCharacterisation

section Termination

theorem countP_set_balance (p : α → Bool) : ∀ (l : List α) (n : Nat) (a b : α),
    l[n]? = some a →
    (l.set n b).countP p + (if p a then 1 else 0) = l.countP p + (if p b then 1 else 0) := by
  intro l
  induction l with
  | nil => intro n a b h; simp at h
  | cons u t ih =>
    intro n a b h
    cases n with
    | zero =>
      rw [List.getElem?_cons_zero] at h
      injection h with h
      rw [← h]
      rw [show (u :: t).set 0 b = b :: t from rfl]
      rw [List.countP_cons, List.countP_cons]
      omega
    | succ m =>
      rw [List.getElem?_cons_succ] at h
      rw [List.set_cons_succ, List.countP_cons, List.countP_cons]
      have := ih m a b h
      omega

theorem sum_set_balance : ∀ (l : List Nat) (n a b : Nat),
    l[n]? = some a → (l.set n b).sum + a = l.sum + b := by
  intro l
  induction l with
  | nil => intro n a b h; simp at h
  | cons u t ih =>
    intro n a b h
    cases n with
    | zero =>
      rw [List.getElem?_cons_zero] at h
      injection h with h
      rw [← h]
      rw [show (u :: t).set 0 b = b :: t from rfl]
      rw [List.sum_cons, List.sum_cons]
      omega
    | succ m =>
      rw [List.getElem?_cons_succ] at h
      rw [List.set_cons_succ, List.sum_cons, List.sum_cons]
      have := ih m a b h
      omega

theorem unopenedCount_set (f : Field) (x y : Nat) (c c' : Cell)
    (hc : get_2d f.cells x y = .ok c) :
    unopenedCount { f with cells := set_2d f.cells x y c' } + (if !c.opened then 1 else 0) =
      unopenedCount f + (if !c'.opened then 1 else 0) := by
  obtain ⟨col, hx, hy⟩ := get_2d_eq_ok.mp hc
  show ((set_2d f.cells x y c').map fun col => col.countP fun c => !c.opened).sum + _ =
    (f.cells.map fun col => col.countP fun c => !c.opened).sum + _
  unfold set_2d
  rw [hx]
  show ((f.cells.set x (col.set y c')).map fun col => col.countP fun c => !c.opened).sum + _ =
    _ + _
  rw [List.map_set]
  have h1 : (f.cells.map fun col => col.countP fun c => !c.opened)[x]? =
      some (col.countP fun c => !c.opened) := by
    rw [List.getElem?_map, hx]
    rfl
  have h2 := sum_set_balance (f.cells.map fun col => col.countP fun c => !c.opened) x
    (col.countP fun c => !c.opened) ((col.set y c').countP fun c => !c.opened) h1
  have h3 := countP_set_balance (fun c => !c.opened) col y c c' hy
  dsimp only at h3
  omega

theorem noFlaggedZero_evolves {f g : Field} (hn : NoFlaggedZero f) (he : Evolves f g) :
    NoFlaggedZero g := by
  intro x y hfl
  rw [he.flaggedAt_eq x y] at hfl
  have := hn x y hfl
  unfold numberAt at this ⊢
  rw [he.1]
  exact this

/-- Unfolding of open_ on an unopened flagged cell whose stored number is
not 0: the call is a no-op returning Ok. -/
theorem open_flagged_nonzero_eq (fuel : Nat) (f : Field) (x y : Nat) (c : Cell)
    (hc : get_2d f.cells x y = .ok c) (hop : c.opened = false) (hfl : c.flagged = true)
    (hnum : get_2d f.numbers x y ≠ .ok 0) :
    open_ (fuel + 1) f x y = some (f, .ok ()) := by
  have hcell : c.openCell = (c, .ok ()) := cellOpen_flagged c hfl
  have hset : set_2d f.cells x y c = f.cells := set_2d_self f.cells x y c hc
  rw [open_succ_eq, hc]
  simp only [hop, Bool.false_eq_true, if_false, hcell, hset]

/-- Unfolding of open_ on an unopened, unflagged mine: the cell is marked
opened and MineOpened is returned, with no cascade. -/
theorem open_mine_eq (fuel : Nat) (f : Field) (x y : Nat) (c : Cell)
    (hc : get_2d f.cells x y = .ok c) (hop : c.opened = false) (hfl : c.flagged = false)
    (hmv : c.value = .Mine) :
    open_ (fuel + 1) f x y =
      some ({ f with cells := set_2d f.cells x y { c with opened := true } },
        .error .MineOpened) := by
  have hcell := cellOpen_unflagged c hfl
  rw [hmv] at hcell
  rw [open_succ_eq, hc]
  simp only [hop, Bool.false_eq_true, if_false, hcell]
  rw [hmv]

/-- Unfolding of open_ on an unopened, unflagged water cell: the cell is
marked opened, then the cascade runs when the stored number is 0. -/
theorem open_water_eq (fuel : Nat) (f : Field) (x y : Nat) (c : Cell)
    (hc : get_2d f.cells x y = .ok c) (hop : c.opened = false) (hfl : c.flagged = false)
    (hmv : c.value = .Water) :
    open_ (fuel + 1) f x y =
      match get_2d f.numbers x y with
      | .ok 0 =>
        (match openList fuel (windowList x y)
            { f with cells := set_2d f.cells x y { c with opened := true } } with
         | none => none
         | some f2 => some (f2, .ok ()))
      | _ => some ({ f with cells := set_2d f.cells x y { c with opened := true } },
          .ok ()) := by
  have hcell := cellOpen_unflagged c hfl
  rw [hmv] at hcell
  rw [open_succ_eq, hc]
  simp only [hop, Bool.false_eq_true, if_false, hcell]
  rw [hmv]

theorem open_terminates_all : ∀ fuel : Nat,
    (∀ f x y, NoFlaggedZero f → unopenedCount f < fuel →
      ∃ out, open_ fuel f x y = some out ∧ unopenedCount out.1 ≤ unopenedCount f) ∧
    (∀ ps f, NoFlaggedZero f → unopenedCount f < fuel →
      ∃ g, openList fuel ps f = some g ∧ unopenedCount g ≤ unopenedCount f) := by
  intro fuel
  induction fuel with
  | zero =>
    constructor
    · intro f x y _ hcount
      omega
    · intro ps f _ hcount
      omega
  | succ n ih =>
    have hopen : ∀ f x y, NoFlaggedZero f → unopenedCount f < n + 1 →
        ∃ out, open_ (n + 1) f x y = some out ∧ unopenedCount out.1 ≤ unopenedCount f := by
      intro f x y hnfz hcount
      cases hg : get_2d f.cells x y with
      | error e =>
        refine ⟨(f, .error e), ?_, Nat.le_refl _⟩
        rw [open_succ_eq, hg]
      | ok c =>
        by_cases hop : c.opened = true
        · exact ⟨(f, .ok ()), open_opened n f x y c hg hop, Nat.le_refl _⟩
        · have hopf : c.opened = false := by
            cases hcv : c.opened with
            | false => rfl
            | true => exact absurd hcv hop
          by_cases hfl : c.flagged = true
          · have hnum : get_2d f.numbers x y ≠ .ok 0 := by
              intro hn0
              refine hnfz x y ?_ ?_
              · unfold flaggedAt
                rw [hg]
                exact hfl
              · unfold numberAt
                rw [hn0]
            exact ⟨(f, .ok ()), open_flagged_nonzero_eq n f x y c hg hopf hfl hnum,
              Nat.le_refl _⟩
          · have hflf : c.flagged = false := by
              cases hcv : c.flagged with
              | false => rfl
              | true => exact absurd hcv hfl
            have hcnt1 := unopenedCount_set f x y c { c with opened := true } hg
            rw [hopf] at hcnt1
            simp at hcnt1
            have hcnt2 : unopenedCount
                { f with cells := set_2d f.cells x y { c with opened := true } } + 1 =
                unopenedCount f := by omega
            have hev1 : Evolves f
                { f with cells := set_2d f.cells x y { c with opened := true } } := by
              refine evolves_set_cell f x y c _ hg ⟨rfl, rfl, fun _ => rfl⟩
            cases hmv : c.value with
            | Mine =>
              refine ⟨({ f with cells := set_2d f.cells x y { c with opened := true } },
                .error .MineOpened), open_mine_eq n f x y c hg hopf hflf hmv, by dsimp only; omega⟩
            | Water =>
              rw [show (n : Nat) + 1 = n + 1 from rfl]
              cases hnum : get_2d f.numbers x y with
              | error e =>
                refine ⟨({ f with cells := set_2d f.cells x y { c with opened := true } },
                  .ok ()), ?_, by dsimp only; omega⟩
                rw [open_water_eq n f x y c hg hopf hflf hmv, hnum]
              | ok m =>
                cases m with
                | zero =>
                  obtain ⟨g, hol, hgle⟩ := ih.2 (windowList x y)
                    { f with cells := set_2d f.cells x y { c with opened := true } }
                    (noFlaggedZero_evolves hnfz hev1) (by omega)
                  refine ⟨(g, .ok ()), ?_, by dsimp only; omega⟩
                  rw [open_water_eq n f x y c hg hopf hflf hmv, hnum, hol]
                | succ k =>
                  refine ⟨({ f with cells := set_2d f.cells x y { c with opened := true } },
                    .ok ()), ?_, by dsimp only; omega⟩
                  rw [open_water_eq n f x y c hg hopf hflf hmv, hnum]
                  rfl
    refine ⟨hopen, ?_⟩
    intro ps
    induction ps with
    | nil =>
      intro f hnfz hcount
      exact ⟨f, openList_nil (n + 1) f, Nat.le_refl _⟩
    | cons p t iht =>
      intro f hnfz hcount
      obtain ⟨out, ho, hole⟩ := hopen f p.1 p.2 hnfz hcount
      obtain ⟨g, hg, hgle⟩ := iht out.1
        (noFlaggedZero_evolves hnfz (open_evolves ho)) (by omega)
      refine ⟨g, ?_, by omega⟩
      rw [openList_cons, ho]
      exact hg

end Termination

section CountsCorrectLemmas

theorem neighbourCount_congr_lookup (v w : List (List Cell)) (x y : Nat) (pred : Cell → Bool)
    (hpt : ∀ p : Nat × Nat,
      (match get_2d v p.1 p.2 with
       | .ok c => pred c
       | .error _ => false) =
      (match get_2d w p.1 p.2 with
       | .ok c => pred c
       | .error _ => false)) :
    neighbourCount v x y pred = neighbourCount w x y pred := by
  rw [neighbourCount_eq_countP, neighbourCount_eq_countP]
  refine List.countP_congr fun p _ => ?_
  unfold scanPred
  rw [hpt p]

theorem lookup_set_2d_value (v : List (List Cell)) (x y : Nat) (c c' : Cell)
    (hc : get_2d v x y = .ok c) (hv : c'.value = c.value) (p : Nat × Nat) :
    (match get_2d (set_2d v x y c') p.1 p.2 with
     | .ok cc => cc.value == CellValue.Mine
     | .error _ => false) =
    (match get_2d v p.1 p.2 with
     | .ok cc => cc.value == CellValue.Mine
     | .error _ => false) := by
  by_cases hp : x = p.1 ∧ y = p.2
  · obtain ⟨h1, h2⟩ := hp
    rw [← h1, ← h2]
    rw [get_2d_set_2d_self c' hc, hc]
    show (c'.value == CellValue.Mine) = (c.value == CellValue.Mine)
    rw [hv]
  · rw [get_2d_set_2d_ne c' p.1 p.2 hc hp]

theorem count_neighbours_set_value (v : List (List Cell)) (x y : Nat) (c c' : Cell)
    (hc : get_2d v x y = .ok c) (hv : c'.value = c.value) (a b : Nat) :
    count_neighbours (set_2d v x y c') a b = count_neighbours v a b := by
  have hlen : (set_2d v x y c').length = v.length := by
    unfold set_2d
    split
    · simp
    · rfl
  have hemp : (set_2d v x y c').isEmpty = v.isEmpty := by
    have h2 := hlen
    cases hs : set_2d v x y c' with
    | nil => cases v with
      | nil => rfl
      | cons u t => rw [hs] at h2; simp at h2
    | cons u t => cases v with
      | nil => rw [hs] at h2; simp at h2
      | cons u2 t2 => rfl
  unfold count_neighbours
  rw [hlen, hemp]
  rw [neighbourCount_congr_lookup (set_2d v x y c') v a b _
    (lookup_set_2d_value v x y c c' hc hv)]

theorem with_cells_numbers_getElem? (cells : List (List Cell)) (i j : Nat) :
    (with_cells cells).numbers[i]?.bind (fun col => col[j]?) =
      (cells[i]?.bind fun col => col[j]?).map fun _ =>
        match count_neighbours cells (w16 i) (w16 j) with
        | .ok n => n
        | .error _ => 0 := by
  show ((cells.enum.map _)[i]?).bind _ = _
  rw [List.getElem?_map, List.getElem?_enum]
  cases hi : cells[i]? with
  | none => simp
  | some col =>
    simp only [Option.map_some', Option.some_bind]
    show (col.enum.map _)[j]? = _
    rw [List.getElem?_map, List.getElem?_enum]
    cases hj : col[j]? with
    | none => simp
    | some cc => simp

theorem with_cells_numbers_set (v : List (List Cell)) (x y : Nat) (c c' : Cell)
    (hc : get_2d v x y = .ok c) (hv : c'.value = c.value) :
    (with_cells (set_2d v x y c')).numbers = (with_cells v).numbers := by
  obtain ⟨col, hx, hy⟩ := get_2d_eq_ok.mp hc
  have hset : set_2d v x y c' = v.set x (col.set y c') := by
    unfold set_2d
    rw [hx]
  refine List.ext_getElem? fun i => ?_
  show ((set_2d v x y c').enum.map _)[i]? = (v.enum.map _)[i]?
  rw [List.getElem?_map, List.getElem?_enum, List.getElem?_map, List.getElem?_enum]
  rw [hset, List.getElem?_set]
  have hcnt : ∀ j, (match count_neighbours (set_2d v x y c') (w16 i) (w16 j) with
      | .ok n => n
      | .error _ => 0) =
      (match count_neighbours v (w16 i) (w16 j) with
       | .ok n => n
       | .error _ => 0) := fun j => by
    rw [count_neighbours_set_value v x y c c' hc hv]
  by_cases hix : x = i
  · subst hix
    have hxl : x < v.length := (List.getElem?_eq_some_iff.mp hx).1
    rw [if_pos rfl, if_pos hxl, hx, ← hset]
    have hinner : ∀ col2 : List Cell, ∀ a : Nat,
        (col2.enum.map fun yc =>
          match count_neighbours (set_2d v x y c') (w16 a) (w16 yc.1) with
          | .ok n => n
          | .error _ => 0) =
        (List.range col2.length).map fun j =>
          match count_neighbours (set_2d v x y c') (w16 a) (w16 j) with
          | .ok n => n
          | .error _ => 0 := by
      intro col2 a
      rw [← List.enum_map_fst col2, List.map_map]
      rfl
    have hinner2 : ∀ col2 : List Cell, ∀ a : Nat,
        (col2.enum.map fun yc =>
          match count_neighbours v (w16 a) (w16 yc.1) with
          | .ok n => n
          | .error _ => 0) =
        (List.range col2.length).map fun j =>
          match count_neighbours v (w16 a) (w16 j) with
          | .ok n => n
          | .error _ => 0 := by
      intro col2 a
      rw [← List.enum_map_fst col2, List.map_map]
      rfl
    simp only [Option.map_some']
    rw [hinner (col.set y c') x, hinner2 col x, List.length_set]
    refine congrArg _ (List.map_congr_left fun j _ => hcnt j)
  · rw [if_neg hix]
    rw [← hset]
    cases hi : v[i]? with
    | none => rfl
    | some coli =>
      show some (coli.enum.map _) = some (coli.enum.map _)
      refine congrArg _ (List.map_congr_left fun yc _ => hcnt yc.1)

theorem countsCorrect_set (f : Field) (x y : Nat) (c c' : Cell)
    (hc : get_2d f.cells x y = .ok c) (hv : c'.value = c.value)
    (hcc : CountsCorrect f) :
    CountsCorrect { f with cells := set_2d f.cells x y c' } := by
  show f.numbers = (with_cells (set_2d f.cells x y c')).numbers
  rw [with_cells_numbers_set f.cells x y c c' hc hv]
  exact hcc

theorem open_preserves_CC : ∀ fuel : Nat,
    (∀ f x y out, open_ fuel f x y = some out → CountsCorrect f → CountsCorrect out.1) ∧
    (∀ ps f g, openList fuel ps f = some g → CountsCorrect f → CountsCorrect g) := by
  intro fuel
  induction fuel with
  | zero =>
    constructor
    · intro f x y out h
      exact absurd h (by rw [show open_ 0 f x y = none from rfl]; simp)
    · intro ps
      induction ps with
      | nil =>
        intro f g h hcc
        rw [openList_nil] at h
        cases h
        exact hcc
      | cons p t iht =>
        intro f g h hcc
        rw [openList_cons, show open_ 0 f p.1 p.2 = none from rfl] at h
        simp at h
  | succ n ih =>
    have hopen : ∀ f x y out, open_ (n + 1) f x y = some out →
        CountsCorrect f → CountsCorrect out.1 := by
      intro f x y out h hcc
      rw [open_succ_eq] at h
      split at h
      · cases h
        exact hcc
      · rename_i c hg
        have hcc1 : CountsCorrect { f with cells := set_2d f.cells x y c.openCell.1 } :=
          countsCorrect_set f x y c c.openCell.1 hg (cellLe_openCell c).1 hcc
        split at h
        · cases h
          exact hcc
        · split at h
          · cases h
            exact hcc1
          · split at h
            · split at h
              · cases h
              · rename_i f2 hol
                cases h
                exact ih.2 _ _ _ hol hcc1
            · cases h
              exact hcc1
    refine ⟨hopen, ?_⟩
    intro ps
    induction ps with
    | nil =>
      intro f g h hcc
      rw [openList_nil] at h
      cases h
      exact hcc
    | cons p t iht =>
      intro f g h hcc
      rw [openList_cons] at h
      cases ho : open_ (n + 1) f p.1 p.2 with
      | none => rw [ho] at h; simp at h
      | some f1r =>
        obtain ⟨f1, r⟩ := f1r
        rw [ho] at h
        exact iht f1 g h (hopen f p.1 p.2 (f1, r) ho hcc)

theorem with_cells_numbers_shape (cells : List (List Cell)) (x y n : Nat)
    (h : get_2d (with_cells cells).numbers x y = .ok n) :
    ∃ c, get_2d cells x y = .ok c := by
  obtain ⟨col, hx, hy⟩ := get_2d_eq_ok.mp h
  have := with_cells_numbers_getElem? cells x y
  rw [hx] at this
  rw [Option.some_bind, hy] at this
  cases hcx : cells[x]? with
  | none => rw [hcx] at this; simp at this
  | some colc =>
    rw [hcx, Option.some_bind] at this
    cases hcy : colc[y]? with
    | none => rw [hcy] at this; simp at this
    | some cc =>
      refine ⟨cc, ?_⟩
      rw [get_2d_eq_ok]
      exact ⟨colc, hcx, hcy⟩

theorem number_zero_no_mine (f : Field) (hcc : CountsCorrect f) (x y : Nat)
    (hx : x < 65536) (hy : y < 65536)
    (h0 : get_2d f.numbers x y = .ok 0) :
    ∀ p ∈ windowList x y, ¬(p.1 = x ∧ p.2 = y) → valueAt f p.1 p.2 ≠ some .Mine := by
  rw [hcc] at h0
  obtain ⟨c, hc⟩ := with_cells_numbers_shape f.cells x y 0 h0
  have hval := with_cells_numbers_at f.cells x y c hc
  rw [w16_eq hx, w16_eq hy] at hval
  rw [h0] at hval
  have hcount : neighbourCount f.cells x y (fun c => c.value == .Mine) = 0 :=
    (Res.ok.inj hval).symm
  rw [neighbourCount_eq_countP] at hcount
  have hall := List.countP_eq_zero.mp hcount
  intro p hp hself hmv
  have hfalse := hall p hp
  unfold scanPred at hfalse
  rw [decide_eq_false hself] at hfalse
  simp only [Bool.not_false, Bool.true_and] at hfalse
  unfold valueAt at hmv
  cases hg : get_2d f.cells p.1 p.2 with
  | error e => rw [hg] at hmv; cases hmv
  | ok cc =>
    rw [hg] at hmv
    have : cc.value = .Mine := by
      injection hmv
    rw [hg] at hfalse
    rw [show (match Res.ok cc with
      | Res.ok c => c.value == CellValue.Mine
      | Res.error _ => false) = (cc.value == CellValue.Mine) from rfl, this] at hfalse
    simp at hfalse

theorem openedAt_set_ne (f : Field) (x y : Nat) (c c' : Cell)
    (hc : get_2d f.cells x y = .ok c) (i j : Nat) (hne : ¬(x = i ∧ y = j)) :
    openedAt { f with cells := set_2d f.cells x y c' } i j = openedAt f i j := by
  show (match get_2d (set_2d f.cells x y c') i j with
    | Res.ok c => c.opened
    | Res.error _ => false) = openedAt f i j
  rw [get_2d_set_2d_ne c' i j hc hne]
  rfl

/-- Opening a cell whose target is in bounds and unflagged leaves the
target revealed in the resulting field. -/
theorem open_opens_target : ∀ (fuel : Nat) (f : Field) (x y : Nat) out (c : Cell),
    open_ fuel f x y = some out → get_2d f.cells x y = .ok c → c.flagged = false →
    openedAt out.1 x y = true := by
  intro fuel f x y out c h hc hfl
  cases fuel with
  | zero => exact absurd h (by rw [show open_ 0 f x y = none from rfl]; simp)
  | succ n =>
    rw [open_succ_eq] at h
    split at h
    · rename_i e heq
      rw [hc] at heq
      cases heq
    · rename_i c2 hg
      have hcc : c2 = c := by
        rw [hg] at hc
        exact Res.ok.inj hc
      subst hcc
      split at h
      · rename_i hop
        cases h
        unfold openedAt
        rw [hg]
        exact hop
      · have hopen1 : openedAt { f with cells := set_2d f.cells x y c2.openCell.1 } x y
            = true := by
          show (match get_2d (set_2d f.cells x y c2.openCell.1) x y with
            | Res.ok c => c.opened
            | Res.error _ => false) = true
          rw [get_2d_set_2d_self c2.openCell.1 hg]
          rw [cellOpen_unflagged c2 hfl]
        split at h
        · cases h
          exact hopen1
        · split at h
          · split at h
            · cases h
            · rename_i f2 hol
              cases h
              exact (openList_evolves hol).openedAt_mono x y hopen1
          · cases h
            exact hopen1

/-- A reveal opens an unrevealed mine only when that mine is the reveal
target itself: on a counts-correct board, cascades never reach a mine,
because a cell with number 0 has no mine neighbour. -/
theorem open_mine_only_target : ∀ fuel : Nat,
    (∀ f x y out, open_ fuel f x y = some out → CountsCorrect f →
      ∀ p : Nat × Nat, valueAt f p.1 p.2 = some .Mine → openedAt f p.1 p.2 = false →
        openedAt out.1 p.1 p.2 = true → p = (x, y)) ∧
    (∀ ps f g, openList fuel ps f = some g → CountsCorrect f →
      ∀ p : Nat × Nat, valueAt f p.1 p.2 = some .Mine → openedAt f p.1 p.2 = false →
        openedAt g p.1 p.2 = true → p ∈ ps) := by
  intro fuel
  induction fuel with
  | zero =>
    constructor
    · intro f x y out h
      exact absurd h (by rw [show open_ 0 f x y = none from rfl]; simp)
    · intro ps
      induction ps with
      | nil =>
        intro f g h hcc p hv hof hoo
        rw [openList_nil] at h
        cases h
        rw [hof] at hoo
        cases hoo
      | cons q t iht =>
        intro f g h hcc p hv hof hoo
        rw [openList_cons, show open_ 0 f q.1 q.2 = none from rfl] at h
        simp at h
  | succ n ih =>
    have hopen : ∀ f x y out, open_ (n + 1) f x y = some out → CountsCorrect f →
        ∀ p : Nat × Nat, valueAt f p.1 p.2 = some .Mine → openedAt f p.1 p.2 = false →
          openedAt out.1 p.1 p.2 = true → p = (x, y) := by
      intro f x y out h hcc p hv hof hoo
      rw [open_succ_eq] at h
      split at h
      · cases h
        rw [hof] at hoo
        cases hoo
      · rename_i c hg
        split at h
        · cases h
          rw [hof] at hoo
          cases hoo
        · by_cases hp : p = (x, y)
          · exact hp
          · have hne : ¬(x = p.1 ∧ y = p.2) := by
              rintro ⟨h1, h2⟩
              exact hp (by cases p; simp at h1 h2 ⊢; exact ⟨h1.symm, h2.symm⟩)
            have hof1 : openedAt { f with cells := set_2d f.cells x y c.openCell.1 } p.1 p.2
                = openedAt f p.1 p.2 := openedAt_set_ne f x y c c.openCell.1 hg p.1 p.2 hne
            have hev1 : Evolves f { f with cells := set_2d f.cells x y c.openCell.1 } :=
              evolves_set_cell f x y c c.openCell.1 hg (cellLe_openCell c)
            split at h
            · cases h
              rw [hof1, hof] at hoo
              cases hoo
            · split at h
              · rename_i heq
                split at h
                · cases h
                · rename_i f2 hol
                  cases h
                  have hcc1 : CountsCorrect
                      { f with cells := set_2d f.cells x y c.openCell.1 } :=
                    countsCorrect_set f x y c c.openCell.1 hg (cellLe_openCell c).1 hcc
                  have hp_in : p ∈ windowList x y := by
                    refine ih.2 (windowList x y) _ f2 hol hcc1 p ?_ ?_ hoo
                    · rw [hev1.valueAt_eq p.1 p.2]
                      exact hv
                    · rw [hof1]
                      exact hof
                  have hsm := windowList_nonempty_small hp_in
                  exact absurd hv (number_zero_no_mine f hcc x y (by omega) (by omega)
                    heq p hp_in (fun hc2 => hne ⟨hc2.1.symm, hc2.2.symm⟩))
              · cases h
                rw [hof1, hof] at hoo
                cases hoo
    refine ⟨hopen, ?_⟩
    intro ps
    induction ps with
    | nil =>
      intro f g h hcc p hv hof hoo
      rw [openList_nil] at h
      cases h
      rw [hof] at hoo
      cases hoo
    | cons q t iht =>
      intro f g h hcc p hv hof hoo
      rw [openList_cons] at h
      cases ho : open_ (n + 1) f q.1 q.2 with
      | none => rw [ho] at h; simp at h
      | some f1r =>
        obtain ⟨f1, r⟩ := f1r
        rw [ho] at h
        by_cases ho1 : openedAt f1 p.1 p.2 = true
        · have hpq : p = (q.1, q.2) := hopen f q.1 q.2 (f1, r) ho hcc p hv hof ho1
          rw [hpq]
          simp
        · have hof1 : openedAt f1 p.1 p.2 = false := by
            cases hx : openedAt f1 p.1 p.2 with
            | false => rfl
            | true => exact absurd hx ho1
          have hev1 := open_evolves ho
          refine List.mem_cons_of_mem q (iht f1 g h
            ((open_preserves_CC (n + 1)).1 f q.1 q.2 (f1, r) ho hcc) p ?_ hof1 hoo)
          rw [hev1.valueAt_eq p.1 p.2]
          exact hv

end CountsCorrectLemmas

section ChordMaster

/-- Full characterisation of the chord scan loop on a well-formed board:
it terminates, evolves the field monotonically, returns Ok or MineOpened,
and when it returns Ok it has revealed every unflagged unrevealed scanned
cell and no scanned cell was an unflagged unrevealed mine. -/
theorem chordLoop_master : ∀ (ps : List (Nat × Nat)) (fuel : Nat) (f : Field),
    (∀ p ∈ ps, (get_2d f.cells p.1 p.2).isOk = true) →
    NoFlaggedZero f → CountsCorrect f → unopenedCount f < fuel →
    ∃ out, chordLoop fuel ps f = some out ∧ Evolves f out.1 ∧
      unopenedCount out.1 ≤ unopenedCount f ∧
      (out.2 = .ok () ∨ out.2 = .error .MineOpened) ∧
      (out.2 = .ok () → ∀ p ∈ ps, flaggedAt f p.1 p.2 = false →
        openedAt f p.1 p.2 = false → openedAt out.1 p.1 p.2 = true) ∧
      (out.2 = .ok () → ∀ p ∈ ps, ¬(valueAt f p.1 p.2 = some .Mine ∧
        flaggedAt f p.1 p.2 = false ∧ openedAt f p.1 p.2 = false)) := by
  intro ps
  induction ps with
  | nil =>
    intro fuel f hin hnfz hcc hfuel
    refine ⟨(f, .ok ()), chordLoop_nil fuel f, evolves_refl f, Nat.le_refl _,
      Or.inl rfl, ?_, ?_⟩
    · intro _ p hp
      simp at hp
    · intro _ p hp
      simp at hp
  | cons q t iht =>
    intro fuel f hin hnfz hcc hfuel
    have hq := hin q (by simp)
    obtain ⟨cq, hcq⟩ := isOk_iff.mp hq
    by_cases hskip : (cq.opened || cq.flagged) = true
    · obtain ⟨out, hloop, hev, hcnt, hres, hcompl, hsound⟩ :=
        iht fuel f (fun p hp => hin p (by simp [hp])) hnfz hcc hfuel
      refine ⟨out, ?_, hev, hcnt, hres, ?_, ?_⟩
      · rw [chordLoop_cons, hcq]
        show (if cq.opened || cq.flagged then chordLoop fuel t f else _) = some out
        rw [if_pos hskip]
        exact hloop
      · intro hok p hp hpf hpo
        rcases List.mem_cons.mp hp with hpq | hpt
        · subst hpq
          have h1 : cq.flagged = false := by
            unfold flaggedAt at hpf
            rw [hcq] at hpf
            exact hpf
          have h2 : cq.opened = false := by
            unfold openedAt at hpo
            rw [hcq] at hpo
            exact hpo
          rw [h1, h2] at hskip
          simp at hskip
        · exact hcompl hok p hpt hpf hpo
      · intro hok p hp hmine
        rcases List.mem_cons.mp hp with hpq | hpt
        · subst hpq
          obtain ⟨_, hpf, hpo⟩ := hmine
          have h1 : cq.flagged = false := by
            unfold flaggedAt at hpf
            rw [hcq] at hpf
            exact hpf
          have h2 : cq.opened = false := by
            unfold openedAt at hpo
            rw [hcq] at hpo
            exact hpo
          rw [h1, h2] at hskip
          simp at hskip
        · exact hsound hok p hpt hmine
    · have hqop : cq.opened = false := by
        cases hx : cq.opened with
        | false => rfl
        | true => rw [hx] at hskip; simp at hskip
      have hqfl : cq.flagged = false := by
        cases hx : cq.flagged with
        | false => rfl
        | true => rw [hx] at hskip; simp at hskip
      obtain ⟨outq, hoq, hqle⟩ := (open_terminates_all fuel).1 f q.1 q.2 hnfz hfuel
      obtain ⟨fq, rq⟩ := outq
      dsimp only at hqle
      cases rq with
      | error e =>
        obtain ⟨hemo, hyv, hyf, hyo, hyoo⟩ :=
          open_error fuel f q.1 q.2 (fq, .error e) hoq e rfl cq hcq
        subst hemo
        refine ⟨(fq, .error .MineOpened), ?_, open_evolves hoq, hqle, Or.inr rfl,
          ?_, ?_⟩
        · rw [chordLoop_cons, hcq]
          show (if cq.opened || cq.flagged then _ else
            match open_ fuel f q.1 q.2 with
            | none => none
            | some (g, .ok _) => chordLoop fuel t g
            | some (g, .error e) => some (g, .error e)) = _
          rw [if_neg hskip, hoq]
        · intro hok
          simp at hok
        · intro hok
          simp at hok
      | ok u =>
        have hevq : Evolves f fq := open_evolves hoq
        have hinq : ∀ p ∈ t, (get_2d fq.cells p.1 p.2).isOk = true := fun p hp =>
          evolves_isOk hevq p.1 p.2 (hin p (by simp [hp]))
        obtain ⟨out, hloop, hev2, hcnt2, hres, hcompl, hsound⟩ :=
          iht fuel fq hinq (noFlaggedZero_evolves hnfz hevq)
            ((open_preserves_CC fuel).1 f q.1 q.2 (fq, .ok u) hoq hcc)
            (by omega)
        refine ⟨out, ?_, evolves_trans hevq hev2, by omega, hres, ?_, ?_⟩
        · rw [chordLoop_cons, hcq]
          show (if cq.opened || cq.flagged then _ else
            match open_ fuel f q.1 q.2 with
            | none => none
            | some (g, .ok _) => chordLoop fuel t g
            | some (g, .error e) => some (g, .error e)) = _
          rw [if_neg hskip, hoq]
          exact hloop
        · intro hok p hp hpf hpo
          rcases List.mem_cons.mp hp with hpq | hpt
          · subst hpq
            have hq1 : openedAt fq p.1 p.2 = true :=
              open_opens_target fuel f p.1 p.2 (fq, .ok u) cq hoq hcq hqfl
            exact hev2.openedAt_mono p.1 p.2 hq1
          · by_cases ho1 : openedAt fq p.1 p.2 = true
            · exact hev2.openedAt_mono p.1 p.2 ho1
            · have hof1 : openedAt fq p.1 p.2 = false := by
                cases hx : openedAt fq p.1 p.2 with
                | false => rfl
                | true => exact absurd hx ho1
              refine hcompl hok p hpt ?_ hof1
              rw [hevq.flaggedAt_eq p.1 p.2]
              exact hpf
        · intro hok p hp hmine
          obtain ⟨hpv, hpf, hpo⟩ := hmine
          obtain ⟨k, hk⟩ : ∃ k, fuel = k + 1 := ⟨fuel - 1, by omega⟩
          have hqmine : ∀ hqv : cq.value = .Mine, False := by
            intro hqv
            have h9 := open_mine_eq k f q.1 q.2 cq hcq hqop hqfl hqv
            rw [← hk] at h9
            rw [h9] at hoq
            injection hoq with hpair
            have h10 := congrArg Prod.snd hpair
            simp at h10
          rcases List.mem_cons.mp hp with hpq | hpt
          · subst hpq
            refine hqmine ?_
            unfold valueAt at hpv
            rw [hcq] at hpv
            injection hpv
          · by_cases ho1 : openedAt fq p.1 p.2 = true
            · have hpq : p = (q.1, q.2) :=
                (open_mine_only_target fuel).1 f q.1 q.2 (fq, .ok u) hoq hcc p hpv hpo ho1
              refine hqmine ?_
              unfold valueAt at hpv
              rw [hpq] at hpv
              rw [hcq] at hpv
              injection hpv
            · have hof1 : openedAt fq p.1 p.2 = false := by
                cases hx : openedAt fq p.1 p.2 with
                | false => rfl
                | true => exact absurd hx ho1
              refine hsound hok p hpt ⟨?_, ?_, hof1⟩
              · rw [hevq.valueAt_eq p.1 p.2]
                exact hpv
              · rw [hevq.flaggedAt_eq p.1 p.2]
                exact hpf

theorem noFlaggedZero_of_bounded (f : Field) (W H : Nat)
    (hW : f.cells.length ≤ W) (hH : ∀ col ∈ f.cells, col.length ≤ H)
    (h : ∀ x, x < W → ∀ y, y < H →
      (flaggedAt f x y = true → numberAt f x y ≠ some 0)) :
    NoFlaggedZero f := by
  intro x y hfl
  cases hgg : get_2d f.cells x y with
  | error e =>
    unfold flaggedAt at hfl
    rw [hgg] at hfl
    cases hfl
  | ok c =>
    obtain ⟨col, hx, hy⟩ := get_2d_eq_ok.mp hgg
    have hxb : x < f.cells.length := (List.getElem?_eq_some_iff.mp hx).1
    have hyb : y < col.length := (List.getElem?_eq_some_iff.mp hy).1
    have hcolmem : col ∈ f.cells := List.getElem?_mem hx
    have hcolH := hH col hcolmem
    exact h x (by omega) y (by omega) hfl

end ChordMaster

section CascadeRegion

/-- Membership in the spec window, characterised by coordinate bounds. -/
theorem mem_specWindow (a b : Nat) (p : Nat × Nat) :
    p ∈ specWindow a b ↔
      a ≤ p.1 + 1 ∧ p.1 ≤ a + 1 ∧ b ≤ p.2 + 1 ∧ p.2 ≤ b + 1 := by
  unfold specWindow rustRange
  constructor
  · intro h
    obtain ⟨nx, hnx, h2⟩ := List.mem_flatMap.mp h
    obtain ⟨ny, hny, h3⟩ := List.mem_map.mp h2
    rw [min_coord_eq, List.mem_range'_1] at hnx hny
    rw [← h3]
    dsimp only
    omega
  · intro hb
    refine List.mem_flatMap.mpr ⟨p.1, ?_, List.mem_map.mpr ⟨p.2, ?_, rfl⟩⟩
    · rw [min_coord_eq, List.mem_range'_1]
      omega
    · rw [min_coord_eq, List.mem_range'_1]
      omega

/-- Below the u16 boundary, every 8-adjacent coordinate is scanned by the
code window. -/
theorem adj8_mem_windowList {q p : Nat × Nat} (hq1 : q.1 + 2 < 65536)
    (hq2 : q.2 + 2 < 65536) (h : adj8 q p) : p ∈ windowList q.1 q.2 := by
  rw [windowList_eq_specWindow hq1 hq2]
  exact (mem_specWindow q.1 q.2 p).mpr h.2

theorem mem_windowList_adj8 {q p : Nat × Nat} (hm : p ∈ windowList q.1 q.2)
    (hne : q ≠ p) : adj8 q p :=
  ⟨hne, (mem_specWindow q.1 q.2 p).mp (mem_windowList_mem_specWindow hm)⟩

theorem numberAt_eq_some_iff {f : Field} {x y n : Nat} :
    numberAt f x y = some n ↔ get_2d f.numbers x y = .ok n := by
  unfold numberAt
  cases hg : get_2d f.numbers x y with
  | ok m => simp
  | error e => simp

theorem numberAt_congr {f g : Field} (h : f.numbers = g.numbers) (x y : Nat) :
    numberAt f x y = numberAt g x y := by
  unfold numberAt get_2d
  rw [h]

theorem evolves_isOk_back {f g : Field} (h : Evolves f g) (x y : Nat)
    (hc : (get_2d g.cells x y).isOk = true) : (get_2d f.cells x y).isOk = true := by
  cases hg : get_2d f.cells x y with
  | ok c => rfl
  | error e =>
    rw [(h.2 x y).1 e hg] at hc
    simp [Res.isOk] at hc

theorem openedAt_isOk {f : Field} {x y : Nat} (h : openedAt f x y = true) :
    (get_2d f.cells x y).isOk = true := by
  unfold openedAt at h
  cases hg : get_2d f.cells x y with
  | ok c => rfl
  | error e => rw [hg] at h; cases h

theorem noFlags_evolves {f g : Field} (hn : NoFlags f) (he : Evolves f g) :
    NoFlags g := fun x y => (he.flaggedAt_eq x y).trans (hn x y)

theorem noFlags_flagged {f : Field} (hn : NoFlags f) {x y : Nat} {c : Cell}
    (hc : get_2d f.cells x y = .ok c) : c.flagged = false := by
  have h := hn x y
  unfold flaggedAt at h
  rw [hc] at h
  exact h

theorem noFlags_noFlaggedZero {f : Field} (hn : NoFlags f) : NoFlaggedZero f := by
  intro x y hfl
  rw [hn x y] at hfl
  cases hfl

theorem cstep_of_numbers_eq {f g : Field} (h : g.numbers = f.numbers)
    {a b : Nat × Nat} (hs : CStep g a b) : CStep f a b :=
  ⟨((numberAt_congr h a.1 a.2).symm).trans hs.1, hs.2⟩

theorem numberAt_some_isOk {f : Field} (hcc : CountsCorrect f) {a b n : Nat}
    (h : numberAt f a b = some n) : (get_2d f.cells a b).isOk = true := by
  have h' : get_2d f.numbers a b = .ok n := numberAt_eq_some_iff.mp h
  rw [hcc] at h'
  obtain ⟨c, hc⟩ := with_cells_numbers_shape f.cells a b n h'
  rw [hc]
  rfl

/-- Every entry of a fresh with_cells board is unopened and unflagged. -/
theorem fresh_cells_state (cells : List (List Cell))
    (hfresh : ∀ col ∈ cells, ∀ cc ∈ col, cc.opened = false ∧ cc.flagged = false) :
    (∀ a b, openedAt (with_cells cells) a b = false) ∧ NoFlags (with_cells cells) := by
  constructor
  · intro a b
    unfold openedAt
    cases hg : get_2d (with_cells cells).cells a b with
    | error e => rfl
    | ok c =>
      obtain ⟨col, hx, hy⟩ := get_2d_eq_ok.mp hg
      exact (hfresh col (List.getElem?_mem hx) c (List.getElem?_mem hy)).1
  · intro a b
    unfold flaggedAt
    cases hg : get_2d (with_cells cells).cells a b with
    | error e => rfl
    | ok c =>
      obtain ⟨col, hx, hy⟩ := get_2d_eq_ok.mp hg
      exact (hfresh col (List.getElem?_mem hx) c (List.getElem?_mem hy)).2

/-- Every listed in-bounds coordinate ends revealed after the cascade loop
runs over the list, on a board without flags. -/
theorem openList_opens_listed : ∀ (ps : List (Nat × Nat)) (fuel : Nat) (f g : Field),
    openList fuel ps f = some g → NoFlags f →
    ∀ p ∈ ps, (get_2d f.cells p.1 p.2).isOk = true → openedAt g p.1 p.2 = true := by
  intro ps
  induction ps with
  | nil =>
    intro fuel f g h hn p hp
    cases hp
  | cons q t iht =>
    intro fuel f g h hn p hp hb
    rw [openList_cons] at h
    cases ho : open_ fuel f q.1 q.2 with
    | none => rw [ho] at h; simp at h
    | some f1r =>
      obtain ⟨f1, r⟩ := f1r
      rw [ho] at h
      have hev1 : Evolves f f1 := open_evolves ho
      cases List.mem_cons.mp hp with
      | inl hpq =>
        subst hpq
        obtain ⟨c, hc⟩ := isOk_iff.mp hb
        have hopened : openedAt f1 p.1 p.2 = true :=
          open_opens_target fuel f p.1 p.2 (f1, r) c ho hc (noFlags_flagged hn hc)
        exact (openList_evolves h).openedAt_mono p.1 p.2 hopened
      | inr hpt =>
        exact iht fuel f1 g h (noFlags_evolves hn hev1) p hpt
          (evolves_isOk hev1 p.1 p.2 hb)

/-- Soundness of the cascade region: every cell revealed by a reveal call
was already revealed or is reachable from the target by cascade steps. -/
theorem open_reach_all : ∀ fuel : Nat,
    (∀ f x y out, open_ fuel f x y = some out →
      ∀ p : Nat × Nat, openedAt out.1 p.1 p.2 = true →
        openedAt f p.1 p.2 = true ∨ Relation.ReflTransGen (CStep f) (x, y) p) ∧
    (∀ ps f g, openList fuel ps f = some g →
      ∀ p : Nat × Nat, openedAt g p.1 p.2 = true →
        openedAt f p.1 p.2 = true ∨
          ∃ a ∈ ps, Relation.ReflTransGen (CStep f) a p) := by
  intro fuel
  induction fuel with
  | zero =>
    constructor
    · intro f x y out h
      exact absurd h (by rw [show open_ 0 f x y = none from rfl]; simp)
    · intro ps
      induction ps with
      | nil =>
        intro f g h p hp
        rw [openList_nil] at h
        cases h
        exact Or.inl hp
      | cons q t iht =>
        intro f g h
        rw [openList_cons, show open_ 0 f q.1 q.2 = none from rfl] at h
        simp at h
  | succ n ih =>
    have hopen : ∀ f x y out, open_ (n + 1) f x y = some out →
        ∀ p : Nat × Nat, openedAt out.1 p.1 p.2 = true →
          openedAt f p.1 p.2 = true ∨ Relation.ReflTransGen (CStep f) (x, y) p := by
      intro f x y out h p hp
      cases hg : get_2d f.cells x y with
      | error e =>
        rw [open_succ_eq, hg] at h
        have h' : some (f, (Res.error e : Res Unit)) = some out := h
        cases h'
        exact Or.inl hp
      | ok c =>
        cases hop : c.opened with
        | true =>
          rw [open_opened n f x y c hg hop] at h
          cases h
          exact Or.inl hp
        | false =>
          cases hfl : c.flagged with
          | true =>
            by_cases hn0 : get_2d f.numbers x y = .ok 0
            · rw [open_flagged_zero n f x y c hg hop hfl hn0] at h
              cases hol : openList n (windowList x y) f with
              | none =>
                rw [hol] at h
                have h' : (none : Option (Field × Res Unit)) = some out := h
                cases h'
              | some f2 =>
                rw [hol] at h
                have h' : some (f2, (Res.ok () : Res Unit)) = some out := h
                cases h'
                have hp' : openedAt f2 p.1 p.2 = true := hp
                cases ih.2 (windowList x y) f f2 hol p hp' with
                | inl h1 => exact Or.inl h1
                | inr h1 =>
                  obtain ⟨a, ha, hpath⟩ := h1
                  exact Or.inr (Relation.ReflTransGen.head
                    ⟨numberAt_eq_some_iff.mpr hn0, ha⟩ hpath)
            · rw [open_flagged_nonzero_eq n f x y c hg hop hfl hn0] at h
              cases h
              exact Or.inl hp
          | false =>
            cases hmv : c.value with
            | Mine =>
              rw [open_mine_eq n f x y c hg hop hfl hmv] at h
              cases h
              have hp' : openedAt
                  { f with cells := set_2d f.cells x y { c with opened := true } }
                    p.1 p.2 = true := hp
              by_cases hpe : x = p.1 ∧ y = p.2
              · right
                have hpxy : p = (x, y) := Prod.ext hpe.1.symm hpe.2.symm
                subst hpxy
                exact Relation.ReflTransGen.refl
              · left
                rw [openedAt_set_ne f x y c { c with opened := true }
                  hg p.1 p.2 hpe] at hp'
                exact hp'
            | Water =>
              rw [open_water_eq n f x y c hg hop hfl hmv] at h
              cases hnum : get_2d f.numbers x y with
              | error e =>
                rw [hnum] at h
                have h' : some
                    ({ f with cells := set_2d f.cells x y { c with opened := true } },
                      (Res.ok () : Res Unit)) = some out := h
                cases h'
                have hp' : openedAt
                    { f with cells := set_2d f.cells x y { c with opened := true } }
                      p.1 p.2 = true := hp
                by_cases hpe : x = p.1 ∧ y = p.2
                · right
                  have hpxy : p = (x, y) := Prod.ext hpe.1.symm hpe.2.symm
                  subst hpxy
                  exact Relation.ReflTransGen.refl
                · left
                  rw [openedAt_set_ne f x y c { c with opened := true }
                    hg p.1 p.2 hpe] at hp'
                  exact hp'
              | ok m =>
                rw [hnum] at h
                cases m with
                | succ k =>
                  have h' : some
                      ({ f with cells := set_2d f.cells x y { c with opened := true } },
                        (Res.ok () : Res Unit)) = some out := h
                  cases h'
                  have hp' : openedAt
                      { f with cells := set_2d f.cells x y { c with opened := true } }
                        p.1 p.2 = true := hp
                  by_cases hpe : x = p.1 ∧ y = p.2
                  · right
                    have hpxy : p = (x, y) := Prod.ext hpe.1.symm hpe.2.symm
                    subst hpxy
                    exact Relation.ReflTransGen.refl
                  · left
                    rw [openedAt_set_ne f x y c { c with opened := true }
                      hg p.1 p.2 hpe] at hp'
                    exact hp'
                | zero =>
                  have h'' : (match openList n (windowList x y)
                      { f with cells := set_2d f.cells x y { c with opened := true } } with
                    | none => none
                    | some f2 => some (f2, Res.ok ())) = some out := h
                  cases hol : openList n (windowList x y)
                      { f with cells := set_2d f.cells x y { c with opened := true } } with
                  | none =>
                    rw [hol] at h''
                    cases h''
                  | some f2 =>
                    rw [hol] at h''
                    have h3 : some (f2, (Res.ok () : Res Unit)) = some out := h''
                    cases h3
                    have hp' : openedAt f2 p.1 p.2 = true := hp
                    cases ih.2 (windowList x y) _ f2 hol p hp' with
                    | inl h1 =>
                      by_cases hpe : x = p.1 ∧ y = p.2
                      · right
                        have hpxy : p = (x, y) := Prod.ext hpe.1.symm hpe.2.symm
                        subst hpxy
                        exact Relation.ReflTransGen.refl
                      · left
                        rw [openedAt_set_ne f x y c { c with opened := true }
                          hg p.1 p.2 hpe] at h1
                        exact h1
                    | inr h1 =>
                      obtain ⟨a, ha, hpath⟩ := h1
                      refine Or.inr (Relation.ReflTransGen.head
                        ⟨numberAt_eq_some_iff.mpr hnum, ha⟩ ?_)
                      exact Relation.ReflTransGen.mono
                        (fun u v hs => cstep_of_numbers_eq rfl hs) hpath
    refine ⟨hopen, ?_⟩
    intro ps
    induction ps with
    | nil =>
      intro f g h p hp
      rw [openList_nil] at h
      cases h
      exact Or.inl hp
    | cons q t iht =>
      intro f g h p hp
      rw [openList_cons] at h
      cases ho : open_ (n + 1) f q.1 q.2 with
      | none => rw [ho] at h; simp at h
      | some f1r =>
        obtain ⟨f1, r⟩ := f1r
        rw [ho] at h
        cases iht f1 g h p hp with
        | inl h1 =>
          cases hopen f q.1 q.2 (f1, r) ho p h1 with
          | inl h2 => exact Or.inl h2
          | inr h2 => exact Or.inr ⟨q, List.mem_cons_self q t, h2⟩
        | inr h1 =>
          obtain ⟨a, ha, hpath⟩ := h1
          refine Or.inr ⟨a, List.mem_cons_of_mem q ha, ?_⟩
          exact Relation.ReflTransGen.mono
            (fun u v hs => cstep_of_numbers_eq (open_evolves ho).1 hs) hpath

/-- Completeness of the cascade at one zero cell: if a reveal call newly
revealed a non-mine cell whose stored number is 0, on a flag-free board,
then every in-bounds cell of that cell's scan window ends revealed. -/
theorem open_zero_window_all : ∀ fuel : Nat,
    (∀ f x y out, open_ fuel f x y = some out → NoFlags f →
      ∀ p : Nat × Nat, openedAt f p.1 p.2 = false → openedAt out.1 p.1 p.2 = true →
        numberAt f p.1 p.2 = some 0 → valueAt f p.1 p.2 ≠ some .Mine →
        ∀ q ∈ windowList p.1 p.2, (get_2d f.cells q.1 q.2).isOk = true →
          openedAt out.1 q.1 q.2 = true) ∧
    (∀ ps f g, openList fuel ps f = some g → NoFlags f →
      ∀ p : Nat × Nat, openedAt f p.1 p.2 = false → openedAt g p.1 p.2 = true →
        numberAt f p.1 p.2 = some 0 → valueAt f p.1 p.2 ≠ some .Mine →
        ∀ q ∈ windowList p.1 p.2, (get_2d f.cells q.1 q.2).isOk = true →
          openedAt g q.1 q.2 = true) := by
  intro fuel
  induction fuel with
  | zero =>
    constructor
    · intro f x y out h
      exact absurd h (by rw [show open_ 0 f x y = none from rfl]; simp)
    · intro ps
      induction ps with
      | nil =>
        intro f g h hn p hpo hpg
        rw [openList_nil] at h
        cases h
        rw [hpo] at hpg
        cases hpg
      | cons q t iht =>
        intro f g h
        rw [openList_cons, show open_ 0 f q.1 q.2 = none from rfl] at h
        simp at h
  | succ n ih =>
    have hopen : ∀ f x y out, open_ (n + 1) f x y = some out → NoFlags f →
        ∀ p : Nat × Nat, openedAt f p.1 p.2 = false → openedAt out.1 p.1 p.2 = true →
          numberAt f p.1 p.2 = some 0 → valueAt f p.1 p.2 ≠ some .Mine →
          ∀ q ∈ windowList p.1 p.2, (get_2d f.cells q.1 q.2).isOk = true →
            openedAt out.1 q.1 q.2 = true := by
      intro f x y out h hn p hpo hpg hp0 hpm q hq hqb
      cases hg : get_2d f.cells x y with
      | error e =>
        rw [open_succ_eq, hg] at h
        have h' : some (f, (Res.error e : Res Unit)) = some out := h
        cases h'
        have hpg' : openedAt f p.1 p.2 = true := hpg
        rw [hpo] at hpg'
        cases hpg'
      | ok c =>
        cases hop : c.opened with
        | true =>
          rw [open_opened n f x y c hg hop] at h
          cases h
          have hpg' : openedAt f p.1 p.2 = true := hpg
          rw [hpo] at hpg'
          cases hpg'
        | false =>
          have hfl : c.flagged = false := noFlags_flagged hn hg
          cases hmv : c.value with
          | Mine =>
            rw [open_mine_eq n f x y c hg hop hfl hmv] at h
            cases h
            have hpg' : openedAt
                { f with cells := set_2d f.cells x y { c with opened := true } }
                  p.1 p.2 = true := hpg
            by_cases hpe : x = p.1 ∧ y = p.2
            · exfalso
              apply hpm
              unfold valueAt
              rw [← hpe.1, ← hpe.2, hg]
              show some c.value = some CellValue.Mine
              rw [hmv]
            · rw [openedAt_set_ne f x y c { c with opened := true }
                hg p.1 p.2 hpe] at hpg'
              rw [hpo] at hpg'
              cases hpg'
          | Water =>
            rw [open_water_eq n f x y c hg hop hfl hmv] at h
            cases hnum : get_2d f.numbers x y with
            | error e =>
              rw [hnum] at h
              have h' : some
                  ({ f with cells := set_2d f.cells x y { c with opened := true } },
                    (Res.ok () : Res Unit)) = some out := h
              cases h'
              have hpg' : openedAt
                  { f with cells := set_2d f.cells x y { c with opened := true } }
                    p.1 p.2 = true := hpg
              by_cases hpe : x = p.1 ∧ y = p.2
              · exfalso
                have h00 : get_2d f.numbers x y = Res.ok 0 := by
                  rw [hpe.1, hpe.2]
                  exact numberAt_eq_some_iff.mp hp0
                rw [hnum] at h00
                cases h00
              · rw [openedAt_set_ne f x y c { c with opened := true }
                  hg p.1 p.2 hpe] at hpg'
                rw [hpo] at hpg'
                cases hpg'
            | ok m =>
              rw [hnum] at h
              cases m with
              | succ k =>
                have h' : some
                    ({ f with cells := set_2d f.cells x y { c with opened := true } },
                      (Res.ok () : Res Unit)) = some out := h
                cases h'
                have hpg' : openedAt
                    { f with cells := set_2d f.cells x y { c with opened := true } }
                      p.1 p.2 = true := hpg
                by_cases hpe : x = p.1 ∧ y = p.2
                · exfalso
                  have h00 : get_2d f.numbers x y = Res.ok 0 := by
                    rw [hpe.1, hpe.2]
                    exact numberAt_eq_some_iff.mp hp0
                  rw [hnum] at h00
                  simp at h00
                · rw [openedAt_set_ne f x y c { c with opened := true }
                    hg p.1 p.2 hpe] at hpg'
                  rw [hpo] at hpg'
                  cases hpg'
              | zero =>
                have h'' : (match openList n (windowList x y)
                    { f with cells := set_2d f.cells x y { c with opened := true } } with
                  | none => none
                  | some f2 => some (f2, Res.ok ())) = some out := h
                cases hol : openList n (windowList x y)
                    { f with cells := set_2d f.cells x y { c with opened := true } } with
                | none =>
                  rw [hol] at h''
                  cases h''
                | some f2 =>
                  rw [hol] at h''
                  have h3 : some (f2, (Res.ok () : Res Unit)) = some out := h''
                  cases h3
                  have hev1 : Evolves f
                      { f with cells := set_2d f.cells x y { c with opened := true } } :=
                    evolves_set_cell f x y c _ hg ⟨rfl, rfl, fun _ => rfl⟩
                  have hn1 : NoFlags
                      { f with cells := set_2d f.cells x y { c with opened := true } } :=
                    noFlags_evolves hn hev1
                  have hpg' : openedAt f2 p.1 p.2 = true := hpg
                  show openedAt f2 q.1 q.2 = true
                  by_cases hpe : x = p.1 ∧ y = p.2
                  · refine openList_opens_listed (windowList x y) n _ f2 hol hn1 q ?_ ?_
                    · rw [hpe.1, hpe.2]
                      exact hq
                    · exact evolves_isOk hev1 q.1 q.2 hqb
                  · have hpo1 : openedAt
                        { f with cells := set_2d f.cells x y { c with opened := true } }
                          p.1 p.2 = false := by
                      rw [openedAt_set_ne f x y c { c with opened := true }
                        hg p.1 p.2 hpe]
                      exact hpo
                    refine ih.2 (windowList x y) _ f2 hol hn1 p hpo1 hpg' ?_ ?_ q hq ?_
                    · exact hp0
                    · intro hmine
                      exact hpm ((hev1.valueAt_eq p.1 p.2).symm.trans hmine)
                    · exact evolves_isOk hev1 q.1 q.2 hqb
    refine ⟨hopen, ?_⟩
    intro ps
    induction ps with
    | nil =>
      intro f g h hn p hpo hpg
      rw [openList_nil] at h
      cases h
      rw [hpo] at hpg
      cases hpg
    | cons w t iht =>
      intro f g h hn p hpo hpg hp0 hpm q hq hqb
      rw [openList_cons] at h
      cases ho : open_ (n + 1) f w.1 w.2 with
      | none => rw [ho] at h; simp at h
      | some f1r =>
        obtain ⟨f1, r⟩ := f1r
        rw [ho] at h
        have hev1 : Evolves f f1 := open_evolves ho
        cases hpf1 : openedAt f1 p.1 p.2 with
        | true =>
          have hwin := hopen f w.1 w.2 (f1, r) ho hn p hpo hpf1 hp0 hpm q hq hqb
          exact (openList_evolves h).openedAt_mono q.1 q.2 hwin
        | false =>
          refine iht f1 g h (noFlags_evolves hn hev1) p hpf1 hpg ?_ ?_ q hq ?_
          · rw [numberAt_congr hev1.1 p.1 p.2]
            exact hp0
          · intro hmine
            exact hpm ((hev1.valueAt_eq p.1 p.2).symm.trans hmine)
          · exact evolves_isOk hev1 q.1 q.2 hqb

/-- The stored number of every cell of a zero region is 0. -/
theorem region_zero {f : Field} {x y : Nat} {p : Nat × Nat}
    (h0 : numberAt f x y = some 0) (h : zeroRegion f (x, y) p) :
    numberAt f p.1 p.2 = some 0 := by
  cases Relation.ReflTransGen.cases_tail h with
  | inl he =>
    rw [he]
    exact h0
  | inr he =>
    obtain ⟨b, _, hstep⟩ := he
    exact hstep.2.1

/-- On a counts-correct board whose in-bounds coordinates stay below the
u16 boundary, no cell of a zero region grown from a water cell is a mine:
a mine in the region would sit next to a region cell whose stored number
is 0. -/
theorem region_not_mine {f : Field} {x y : Nat} {p : Nat × Nat}
    (hcc : CountsCorrect f) (hw : valueAt f x y = some CellValue.Water)
    (hsb : ∀ a b, (get_2d f.cells a b).isOk = true → a + 2 < 65536 ∧ b + 2 < 65536)
    (h : zeroRegion f (x, y) p) :
    valueAt f p.1 p.2 ≠ some CellValue.Mine := by
  intro hm
  cases Relation.ReflTransGen.cases_tail h with
  | inl he =>
    rw [he] at hm
    have hm' : valueAt f x y = some CellValue.Mine := hm
    rw [hw] at hm'
    simp at hm'
  | inr he =>
    obtain ⟨b, hbpath, hstep⟩ := he
    have hb0 : get_2d f.numbers b.1 b.2 = .ok 0 := numberAt_eq_some_iff.mp hstep.1
    have hbok : (get_2d f.cells b.1 b.2).isOk = true := numberAt_some_isOk hcc hstep.1
    have hbs := hsb b.1 b.2 hbok
    have hmem : p ∈ windowList b.1 b.2 := adj8_mem_windowList hbs.1 hbs.2 hstep.2.2
    have hnself : ¬(p.1 = b.1 ∧ p.2 = b.2) := by
      intro hpb
      exact hstep.2.2.1 (Prod.ext hpb.1.symm hpb.2.symm)
    exact number_zero_no_mine f hcc b.1 b.2 (by omega) (by omega) hb0 p hmem hnself hm

/-- Every path of cascade steps out of a zero cell ends inside the zero
region or on a cell 8-adjacent to it. -/
theorem reach_region_or_ring {f : Field} {x y : Nat} {p : Nat × Nat}
    (h0 : numberAt f x y = some 0)
    (h : Relation.ReflTransGen (CStep f) (x, y) p) :
    zeroRegion f (x, y) p ∨ ∃ q, zeroRegion f (x, y) q ∧ adj8 q p := by
  induction h with
  | refl => exact Or.inl Relation.ReflTransGen.refl
  | @tail b p' hpath hstep ih =>
    have hb0 : numberAt f b.1 b.2 = some 0 := hstep.1
    have hbreg : zeroRegion f (x, y) b := by
      cases ih with
      | inl h1 => exact h1
      | inr h1 =>
        obtain ⟨q, hqreg, hqadj⟩ := h1
        exact Relation.ReflTransGen.tail hqreg ⟨region_zero h0 hqreg, hb0, hqadj⟩
    by_cases hbp : b = p'
    · exact Or.inl (hbp ▸ hbreg)
    · have hadj : adj8 b p' := mem_windowList_adj8 hstep.2 hbp
      by_cases hpz : numberAt f p'.1 p'.2 = some 0
      · exact Or.inl (Relation.ReflTransGen.tail hbreg ⟨hb0, hpz, hadj⟩)
      · exact Or.inr ⟨b, hbreg, hadj⟩

/-- On a fresh flag-free counts-correct board below the u16 boundary, a
reveal of a zero water cell reveals the whole zero region of the target. -/
theorem region_opened {fuel : Nat} {f : Field} {x y : Nat} {out : Field × Res Unit}
    (h : open_ fuel f x y = some out) (hn : NoFlags f) (hcc : CountsCorrect f)
    (hfr : ∀ a b, openedAt f a b = false)
    (hsb : ∀ a b, (get_2d f.cells a b).isOk = true → a + 2 < 65536 ∧ b + 2 < 65536)
    (h0 : numberAt f x y = some 0) (hw : valueAt f x y = some CellValue.Water)
    {p : Nat × Nat} (hreg : zeroRegion f (x, y) p) :
    openedAt out.1 p.1 p.2 = true := by
  induction hreg with
  | refl =>
    have hcok : (get_2d f.cells x y).isOk = true := numberAt_some_isOk hcc h0
    obtain ⟨c, hc⟩ := isOk_iff.mp hcok
    exact open_opens_target fuel f x y out c h hc (noFlags_flagged hn hc)
  | @tail b p' hpath hstep ih =>
    have hb0 : numberAt f b.1 b.2 = some 0 := hstep.1
    have hbm : valueAt f b.1 b.2 ≠ some CellValue.Mine :=
      region_not_mine hcc hw hsb hpath
    have hbok : (get_2d f.cells b.1 b.2).isOk = true := numberAt_some_isOk hcc hb0
    have hbs := hsb b.1 b.2 hbok
    have hp0 : numberAt f p'.1 p'.2 = some 0 := hstep.2.1
    have hpb : (get_2d f.cells p'.1 p'.2).isOk = true := numberAt_some_isOk hcc hp0
    exact (open_zero_window_all fuel).1 f x y out h hn b (hfr b.1 b.2) ih hb0 hbm
      p' (adj8_mem_windowList hbs.1 hbs.2 hstep.2.2) hpb

end CascadeRegion

theorem openList_diverge_head (fuel : Nat) (f : Field) (ps : List (Nat × Nat))
    (h : open_ fuel f 0 0 = none) : openList fuel ((0, 0) :: ps) f = none := by
  rw [openList_cons, h]

/-- C2: the claim states that reveal terminates on every reachable board and
coordinate. The code does not: on a reachable board holding a flagged cell
whose adjacency number is 0 (here a 2x1 all-water board with (0, 0) flagged),
Field::open recurses forever, because Cell::open leaves a flagged cell
unopened yet returns Ok, so the zero-number cascade fires and re-enters
open(0, 0), which is still unopened. Formally: for every fuel, the embedded
open_ fails to produce a result. -/
theorem c2_reveal_diverges_on_flagged_zero_cell :
    ∀ fuel : Nat, open_ fuel divergeField2 0 0 = none := by
  intro fuel
  induction fuel with
  | zero => rfl
  | succ n ih =>
    rw [open_flagged_zero n divergeField2 0 0 ⟨.Water, false, true⟩
      (by decide) rfl rfl (by decide)]
    rw [show windowList 0 0 = [(0, 0), (0, 1), (1, 0), (1, 1)] from by decide]
    rw [openList_diverge_head n divergeField2 _ ih]

/-- C3: the claim states that revealing an in-bounds flagged cell succeeds
and changes nothing. On a 1x1 all-water board with the only cell flagged (a
reachable state), reveal(0, 0) never returns at all: the flagged cell keeps
opened = false, Cell::open returns Ok, the stored number 0 triggers the
cascade, and the cascade window contains (0, 0) itself, so the call recurses
forever instead of succeeding without revealing. -/
theorem c3_reveal_flagged_zero_cell_diverges :
    ∀ fuel : Nat, open_ fuel divergeField1 0 0 = none := by
  intro fuel
  induction fuel with
  | zero => rfl
  | succ n ih =>
    rw [open_flagged_zero n divergeField1 0 0 ⟨.Water, false, true⟩
      (by decide) rfl rfl (by decide)]
    rw [show windowList 0 0 = [(0, 0), (0, 1), (1, 0), (1, 1)] from by decide]
    rw [openList_diverge_head n divergeField1 _ ih]

/-- C1 (amended): reveal never returns OutOfBounds for an in-bounds
coordinate (cascade errors are swallowed); chord never returns OutOfBounds
when the whole scan window around (x, y) lies inside the grid (and the
numbers entry exists, as with_cells guarantees). At the high edge of the
grid, however, the chord scan itself propagates OutOfBounds, so the
restriction to a fully in-bounds window is necessary. -/
theorem c1_no_out_of_bounds :
    (∀ fuel f x y c out, get_2d f.cells x y = .ok c →
        open_ fuel f x y = some out → isOOB out.2 = false) ∧
    (∀ fuel f x y n out, get_2d f.numbers x y = .ok n →
        (∀ p ∈ specWindow x y, (get_2d f.cells p.1 p.2).isOk = true) →
        chord fuel f x y = some out → isOOB out.2 = false) :=
  ⟨fun fuel f x y c out hc h => open_no_oob fuel f x y c out hc h,
   fun fuel f x y n out hn hwin h => chord_no_oob fuel f x y n out hn hwin h⟩

theorem c1_no_out_of_bounds_witness :
    (get_2d allWater2.cells 0 0 = .ok Cell.water ∧
      open_ 9 allWater2 0 0 = some c1OpenOut ∧ isOOB c1OpenOut.2 = false) ∧
    (get_2d allWater3.numbers 1 1 = .ok 0 ∧
      (∀ p ∈ specWindow 1 1, (get_2d allWater3.cells p.1 p.2).isOk = true) ∧
      chord 9 allWater3 1 1 = some (allWater3, .ok ()) ∧
      isOOB ((allWater3, (.ok () : Res Unit))).2 = false) :=
  ⟨⟨by decide, by decide,
    c1_no_out_of_bounds.1 9 allWater2 0 0 Cell.water c1OpenOut (by decide) (by decide)⟩,
   ⟨by decide, by decide, by decide,
    c1_no_out_of_bounds.2 9 allWater3 1 1 0 (allWater3, .ok ()) (by decide) (by decide)
      (by decide)⟩⟩

/-- C1 counterexample: on the 2x2 all-water board with every cell revealed
(reached by reveal(0, 0), whose cascade opens everything), the cell (1, 1)
is revealed and satisfied (stored number 0, no flagged neighbour), yet
chord(1, 1) returns OutOfBounds(0, 2): the chord scan re-checks bounds with
the error-propagating lookup, and the window of an edge cell leaves the
grid. The claim says chord on an in-bounds coordinate never surfaces
OutOfBounds. -/
theorem c1_counterexample :
    openedAt c1Field 1 1 = true ∧
    numberAt c1Field 1 1 = some (neighbourCount c1Field.cells 1 1 (fun c => c.flagged)) ∧
    chord 9 c1Field 1 1 = some (c1Field, .error (.OutOfBounds 0 2)) := by decide

/-- C4 (amended): for every board built by with_cells, the stored number
at any in-bounds (x, y) below the u16 scan boundary (x + 2 < 65536 and
y + 2 < 65536, which covers every cell of every board both of whose
dimensions are at most 65534) equals the exact count of in-bounds Mine
8-neighbours of (x, y) (the specification count specAdjMines, whose
negative-coordinate and beyond-grid filtering gives corner cells 3
countable neighbours, edge cells 5, interior cells 8); the numbers grid
is never mutated by flag, reveal or chord; and on the 3x3 example grid
with mines at (0,2), (1,0), (2,0), (2,2) the numbers are
[[1,2,0],[1,4,2],[1,3,0]]. The boundary restriction is necessary: the
scan bound x + 2 is a u16 and wraps to 0 at x = 65534, so on a reachable
width-65535 board the program stores 0 there regardless of neighbouring
mines (see c4_counterexample). -/
theorem c4_adjacency_counts :
    (∀ cells x y c, get_2d cells x y = .ok c → x + 2 < 65536 → y + 2 < 65536 →
        get_2d (with_cells cells).numbers x y = .ok (specAdjMines cells x y)) ∧
    (∀ f x y, ((Field.flag f x y).1).numbers = f.numbers) ∧
    (∀ fuel f x y out, open_ fuel f x y = some out → out.1.numbers = f.numbers) ∧
    (∀ fuel f x y out, chord fuel f x y = some out → out.1.numbers = f.numbers) ∧
    (with_cells exampleGrid3).numbers = [[1, 2, 0], [1, 4, 2], [1, 3, 0]] := by
  refine ⟨?_, ?_, ?_, ?_, by decide⟩
  · intro cells x y c hc hx hy
    rw [with_cells_numbers_at cells x y c hc, w16_eq (show x < 65536 by omega),
      w16_eq (show y < 65536 by omega),
      neighbourCount_mine_eq_specAdjMines cells x y hx hy]
  · exact flag_numbers_eq
  · intro fuel f x y out h
    exact (open_evolves h).1
  · intro fuel f x y out h
    exact (chord_evolves h).1

theorem c4_adjacency_counts_witness :
    (get_2d exampleGrid3 1 1 = .ok Cell.water ∧
      get_2d (with_cells exampleGrid3).numbers 1 1 = .ok (specAdjMines exampleGrid3 1 1)) ∧
    ((Field.flag (with_cells exampleGrid3) 0 0).1).numbers = (with_cells exampleGrid3).numbers ∧
    (open_ 9 (with_cells exampleGrid3) 1 1 = some exampleOpenOut ∧
      exampleOpenOut.1.numbers = (with_cells exampleGrid3).numbers) ∧
    (chord 9 (with_cells exampleGrid3) 1 1 = some exampleChordOut ∧
      exampleChordOut.1.numbers = (with_cells exampleGrid3).numbers) :=
  ⟨⟨by decide, c4_adjacency_counts.1 exampleGrid3 1 1 Cell.water (by decide)
      (by decide) (by decide)⟩,
   c4_adjacency_counts.2.1 (with_cells exampleGrid3) 0 0,
   ⟨by decide, c4_adjacency_counts.2.2.1 9 (with_cells exampleGrid3) 1 1 exampleOpenOut (by decide)⟩,
   ⟨by decide, c4_adjacency_counts.2.2.2.1 9 (with_cells exampleGrid3) 1 1 exampleChordOut (by decide)⟩⟩

/-- Counterexample to C4 as stated for every in-bounds cell: on the
reachable 65535x1 board c4cGrid the cell (65534, 0) has the mine
(65533, 0) among its in-bounds 8-neighbours, so its exact count is 1, yet
with_cells stores 0 there, because the u16 scan bound 65534 + 2 wraps to
0 and the neighbour scan range min_coord(65534)..0 is empty. -/
theorem c4_counterexample :
    get_2d c4cGrid 65533 0 = .ok Cell.mine ∧
    specAdjMines c4cGrid 65534 0 = 1 ∧
    get_2d (with_cells c4cGrid).numbers 65534 0 = .ok 0 := by
  have hrep : (List.replicate 65533 ([Cell.water] : List Cell)).length = 65533 :=
    List.length_replicate 65533 [Cell.water]
  have h65533 : c4cGrid[65533]? = some [Cell.mine] := by
    show (List.replicate 65533 [Cell.water] ++ [[Cell.mine], [Cell.water]])[65533]? = _
    rw [List.getElem?_append_right (by rw [hrep]), hrep]
    rfl
  have h65534 : c4cGrid[65534]? = some [Cell.water] := by
    show (List.replicate 65533 [Cell.water] ++ [[Cell.mine], [Cell.water]])[65534]? = _
    rw [List.getElem?_append_right (by rw [hrep]; omega), hrep]
    rfl
  have h65535 : c4cGrid[65535]? = none := by
    refine List.getElem?_eq_none ?_
    show (List.replicate 65533 [Cell.water] ++ [[Cell.mine], [Cell.water]]).length ≤ 65535
    rw [List.length_append, hrep]
    decide
  have hm : get_2d c4cGrid 65533 0 = .ok Cell.mine :=
    get_2d_eq_ok.mpr ⟨[Cell.mine], h65533, rfl⟩
  have hw : get_2d c4cGrid 65534 0 = .ok Cell.water :=
    get_2d_eq_ok.mpr ⟨[Cell.water], h65534, rfl⟩
  refine ⟨hm, ?_, ?_⟩
  · show (specNeighbours 65534 0).countP (isMineAt c4cGrid) = 1
    rw [show specNeighbours 65534 0 =
        [(65533, 0), (65533, 1), (65534, 1), (65535, 0), (65535, 1)] from
      specNeighbours_succ_zero 65533]
    have hMa : isMineAt c4cGrid (65533, 0) = true := by
      rw [isMineAt_ok c4cGrid (65533, 0) Cell.mine hm]
      rfl
    have hMb : isMineAt c4cGrid (65533, 1) = false :=
      isMineAt_error c4cGrid (65533, 1) (.OutOfBounds 65533 1)
        (get_2d_col_none c4cGrid 65533 1 [Cell.mine] h65533 rfl)
    have hMc : isMineAt c4cGrid (65534, 1) = false :=
      isMineAt_error c4cGrid (65534, 1) (.OutOfBounds 65534 1)
        (get_2d_col_none c4cGrid 65534 1 [Cell.water] h65534 rfl)
    have hMd : isMineAt c4cGrid (65535, 0) = false :=
      isMineAt_error c4cGrid (65535, 0) (.OutOfBounds 65535 0)
        (get_2d_row_none c4cGrid 65535 0 h65535)
    have hMe : isMineAt c4cGrid (65535, 1) = false :=
      isMineAt_error c4cGrid (65535, 1) (.OutOfBounds 65535 1)
        (get_2d_row_none c4cGrid 65535 1 h65535)
    simp [List.countP_cons, hMa, hMb, hMc, hMd, hMe]
  · rw [with_cells_numbers_at c4cGrid 65534 0 Cell.water hw]
    rw [show w16 65534 = 65534 from rfl, show w16 0 = 0 from rfl]
    rw [show neighbourCount c4cGrid 65534 0 (fun c => c.value == CellValue.Mine) = 0
      from by decide]

/-- C5 (amended): for a revealed cell whose full scan window lies inside
the grid (an interior cell) and whose flagged-neighbour count equals its
stored number, on a board whose numbers are the with_cells counts and with
no flagged zero-number cell (otherwise reveal itself diverges, see C2),
chord terminates and returns Ok or MineOpened; it returns MineOpened
exactly when some window neighbour was an unflagged, unrevealed mine; and
when it returns Ok it has revealed every unflagged, unrevealed window
neighbour. At the high edge of the grid the scan aborts with OutOfBounds
instead (see the counterexample and C1), so the window restriction is
necessary, and when a mine is hit the scan aborts there, so neighbours
after the first mine may stay unrevealed. -/
theorem c5_chord_satisfied_reveals_neighbours :
    ∀ fuel f x y c,
      get_2d f.cells x y = .ok c → c.opened = true →
      get_2d f.numbers x y = .ok (neighbourCount f.cells x y (fun c => c.flagged)) →
      (∀ p ∈ windowList x y, (get_2d f.cells p.1 p.2).isOk = true) →
      NoFlaggedZero f → CountsCorrect f → unopenedCount f < fuel →
      ∃ out, chord fuel f x y = some out ∧
        (out.2 = .ok () ∨ out.2 = .error .MineOpened) ∧
        (out.2 = .error .MineOpened ↔ ∃ p ∈ windowList x y,
          valueAt f p.1 p.2 = some .Mine ∧ flaggedAt f p.1 p.2 = false ∧
            openedAt f p.1 p.2 = false) ∧
        (out.2 = .ok () → ∀ p ∈ windowList x y, flaggedAt f p.1 p.2 = false →
          openedAt f p.1 p.2 = false → openedAt out.1 p.1 p.2 = true) := by
  intro fuel f x y c hc hop hnum hwin hnfz hcc hfuel
  obtain ⟨k, hk⟩ : ∃ k, fuel = k + 1 := ⟨fuel - 1, by omega⟩
  subst hk
  have hcen : open_ (k + 1) f x y = some (f, .ok ()) := open_opened k f x y c hc hop
  obtain ⟨out, hloop, hev, hcnt, hres, hcompl, hsound⟩ :=
    chordLoop_master (windowList x y) (k + 1) f hwin hnfz hcc hfuel
  refine ⟨out, ?_, hres, ⟨?_, ?_⟩, hcompl⟩
  · rw [chord_eq, hc]
    show (if !c.opened then some (f, .ok ()) else _) = some out
    rw [hop]
    show (if !true then some (f, .ok ()) else _) = some out
    rw [if_neg (by simp)]
    rw [hnum]
    show (if neighbourCount f.cells x y (fun c => c.flagged) ≠
        neighbourCount f.cells x y (fun c => c.flagged) then _ else
      match open_ (k + 1) f x y with
      | none => none
      | some (f1, .error e) => some (f1, .error e)
      | some (f1, .ok _) => chordLoop (k + 1) (windowList x y) f1) = some out
    rw [if_neg (fun hh => hh rfl), hcen]
    exact hloop
  · intro herr
    obtain ⟨p, hp, h1, h2, h3, _⟩ :=
      chordLoop_mineopened (windowList x y) (k + 1) f out hloop herr
    exact ⟨p, hp, h1, h2, h3⟩
  · rintro ⟨p, hp, h1, h2, h3⟩
    rcases hres with hok | herr
    · exact absurd ⟨h1, h2, h3⟩ (hsound hok p hp)
    · exact herr

theorem c5_chord_satisfied_reveals_neighbours_witness :
    (get_2d c5Start.cells 1 1 = .ok ⟨.Water, true, false⟩ ∧
      (⟨.Water, true, false⟩ : Cell).opened = true ∧
      get_2d c5Start.numbers 1 1 =
        .ok (neighbourCount c5Start.cells 1 1 (fun c => c.flagged)) ∧
      (∀ p ∈ windowList 1 1, (get_2d c5Start.cells p.1 p.2).isOk = true) ∧
      NoFlaggedZero c5Start ∧ CountsCorrect c5Start ∧ unopenedCount c5Start < 99) ∧
    (∃ out, chord 99 c5Start 1 1 = some out ∧
      (out.2 = .ok () ∨ out.2 = .error .MineOpened) ∧
      (out.2 = .error .MineOpened ↔ ∃ p ∈ windowList 1 1,
        valueAt c5Start p.1 p.2 = some .Mine ∧ flaggedAt c5Start p.1 p.2 = false ∧
          openedAt c5Start p.1 p.2 = false) ∧
      (out.2 = .ok () → ∀ p ∈ windowList 1 1, flaggedAt c5Start p.1 p.2 = false →
        openedAt c5Start p.1 p.2 = false → openedAt out.1 p.1 p.2 = true)) :=
  have hnfz : NoFlaggedZero c5Start :=
    noFlaggedZero_of_bounded c5Start 3 3 (by decide) (by decide) (by decide)
  have hcc : CountsCorrect c5Start := by
    show c5Start.numbers = (with_cells c5Start.cells).numbers
    decide
  ⟨⟨by decide, rfl, by decide, by decide, hnfz, hcc, by decide⟩,
   c5_chord_satisfied_reveals_neighbours 99 c5Start 1 1 ⟨.Water, true, false⟩
     (by decide) rfl (by decide) (by decide) hnfz hcc (by decide)⟩

/-- C5 counterexample: on a 3x3 board with a mine at (0, 1), flagged, and
the edge cell (1, 2) revealed (number 1, one flagged neighbour, so the
chord is satisfied), chord(1, 2) leaves the in-bounds, unflagged,
unrevealed neighbour (2, 1) unrevealed and returns OutOfBounds(0, 3): the
scan hits the out-of-grid coordinate (0, 3) and aborts before reaching the
column x = 2. The claim says every such neighbour is revealed and the only
possible error is MineOpened. -/
theorem c5_counterexample :
    openedAt c5cStart 1 2 = true ∧
    numberAt c5cStart 1 2 = some (neighbourCount c5cStart.cells 1 2 (fun c => c.flagged)) ∧
    flaggedAt c5cStart 2 1 = false ∧ openedAt c5cStart 2 1 = false ∧
    chord 99 c5cStart 1 2 = some c5cOut ∧
    c5cOut.2 = .error (.OutOfBounds 0 3) ∧
    openedAt c5cOut.1 2 1 = false := by decide

/-- C6 (amended): the original claim quantifies over every board; it fails
on boards with flags, because a flagged bordering cell is skipped by the
cascade (see the counterexample) and a flagged zero-number cell makes the
cascade diverge (see C2 and C3). On a freshly built board, where no cell
is revealed or flagged, and whose dimensions are at most 65534 (the scan
bound x + 2 is computed in u16 and wraps at 65534, emptying the cascade
window of the two topmost coordinates, so a width- or height-65535 board
escapes the characterisation), revealing an in-bounds water cell whose
stored adjacency number is 0 terminates within any fuel exceeding the
number of unopened cells (so the cascade performs boundedly many cell
visits), returns Ok, and the cells revealed afterwards are exactly the
8-connected zero-count region of the target together with the ring of
in-bounds cells 8-adjacent to that region: nothing outside the region and
its ring is revealed. -/
theorem c6_zero_cascade_region_and_ring (fuel : Nat) (cells : List (List Cell))
    (x y : Nat) (c : Cell)
    (hfresh : ∀ col ∈ cells, ∀ cc ∈ col, cc.opened = false ∧ cc.flagged = false)
    (hsize : cells.length ≤ 65534 ∧ ∀ col ∈ cells, col.length ≤ 65534)
    (hc : get_2d cells x y = .ok c) (hw : c.value = .Water)
    (h0 : get_2d (with_cells cells).numbers x y = .ok 0)
    (hfuel : unopenedCount (with_cells cells) < fuel) :
    ∃ f', open_ fuel (with_cells cells) x y = some (f', .ok ()) ∧
      ∀ p : Nat × Nat, (openedAt f' p.1 p.2 = true ↔
        (zeroRegion (with_cells cells) (x, y) p ∨
          ∃ q, zeroRegion (with_cells cells) (x, y) q ∧ adj8 q p ∧
            (get_2d cells p.1 p.2).isOk = true)) := by
  have hfr := (fresh_cells_state cells hfresh).1
  have hnf := (fresh_cells_state cells hfresh).2
  have hnfz : NoFlaggedZero (with_cells cells) := noFlags_noFlaggedZero hnf
  have hcc : CountsCorrect (with_cells cells) := rfl
  have hsb : ∀ a b, (get_2d (with_cells cells).cells a b).isOk = true →
      a + 2 < 65536 ∧ b + 2 < 65536 := by
    intro a b hok
    obtain ⟨cc, hcg⟩ := isOk_iff.mp hok
    obtain ⟨col, hxa, hyb⟩ := get_2d_eq_ok.mp hcg
    have h1 : a < cells.length := (List.getElem?_eq_some_iff.mp hxa).1
    have h2 : b < col.length := (List.getElem?_eq_some_iff.mp hyb).1
    have hcolmem : col ∈ cells := List.getElem?_mem hxa
    have h3 := hsize.2 col hcolmem
    have h4 := hsize.1
    omega
  have hc' : get_2d (with_cells cells).cells x y = Res.ok c := hc
  have hvw : valueAt (with_cells cells) x y = some CellValue.Water := by
    unfold valueAt
    rw [hc']
    show some c.value = some CellValue.Water
    rw [hw]
  have h0' : numberAt (with_cells cells) x y = some 0 := numberAt_eq_some_iff.mpr h0
  obtain ⟨out, hout, _⟩ := (open_terminates_all fuel).1 (with_cells cells) x y hnfz hfuel
  obtain ⟨f', r⟩ := out
  have hrok : r = Res.ok () := by
    cases r with
    | ok u => cases u; rfl
    | error e =>
      exfalso
      have hvm := (open_error fuel (with_cells cells) x y (f', .error e)
        hout e rfl c hc').2.1
      rw [hvw] at hvm
      simp at hvm
  subst hrok
  refine ⟨f', hout, fun p => ⟨?_, ?_⟩⟩
  · intro hp
    cases (open_reach_all fuel).1 (with_cells cells) x y (f', .ok ()) hout p hp with
    | inl h1 =>
      rw [hfr p.1 p.2] at h1
      cases h1
    | inr h1 =>
      cases reach_region_or_ring h0' h1 with
      | inl h2 => exact Or.inl h2
      | inr h2 =>
        obtain ⟨q, hqreg, hqadj⟩ := h2
        refine Or.inr ⟨q, hqreg, hqadj, ?_⟩
        exact evolves_isOk_back (open_evolves hout) p.1 p.2 (openedAt_isOk hp)
  · intro hp
    cases hp with
    | inl hreg =>
      exact region_opened hout hnf hcc hfr hsb h0' hvw hreg
    | inr hring =>
      obtain ⟨q, hqreg, hqadj, hqb⟩ := hring
      have hqop : openedAt f' q.1 q.2 = true :=
        region_opened hout hnf hcc hfr hsb h0' hvw hqreg
      have hq0 : numberAt (with_cells cells) q.1 q.2 = some 0 := region_zero h0' hqreg
      have hqm : valueAt (with_cells cells) q.1 q.2 ≠ some CellValue.Mine :=
        region_not_mine hcc hvw hsb hqreg
      have hqok : (get_2d (with_cells cells).cells q.1 q.2).isOk = true :=
        numberAt_some_isOk hcc hq0
      have hqs := hsb q.1 q.2 hqok
      exact (open_zero_window_all fuel).1 (with_cells cells) x y (f', .ok ()) hout hnf
        q (hfr q.1 q.2) hqop hq0 hqm p (adj8_mem_windowList hqs.1 hqs.2 hqadj) hqb

/-- Witness for C6: on the fresh 3x3 all-water board, every hypothesis of
the amended claim holds for reveal(1, 1) at fuel 10, and the theorem
yields the terminating run with the region-and-ring characterisation. -/
theorem c6_zero_cascade_region_and_ring_witness :
    (∀ col ∈ c6wGrid, ∀ cc ∈ col, cc.opened = false ∧ cc.flagged = false) ∧
    (c6wGrid.length ≤ 65534 ∧ ∀ col ∈ c6wGrid, col.length ≤ 65534) ∧
    get_2d c6wGrid 1 1 = .ok Cell.water ∧
    get_2d (with_cells c6wGrid).numbers 1 1 = .ok 0 ∧
    unopenedCount (with_cells c6wGrid) < 10 ∧
    (∃ f', open_ 10 (with_cells c6wGrid) 1 1 = some (f', .ok ()) ∧
      ∀ p : Nat × Nat, (openedAt f' p.1 p.2 = true ↔
        (zeroRegion (with_cells c6wGrid) (1, 1) p ∨
          ∃ q, zeroRegion (with_cells c6wGrid) (1, 1) q ∧ adj8 q p ∧
            (get_2d c6wGrid p.1 p.2).isOk = true))) :=
  ⟨by decide, by decide, by decide, by decide, by decide,
    c6_zero_cascade_region_and_ring 10 c6wGrid 1 1 Cell.water (by decide) (by decide)
      (by decide) rfl (by decide) (by decide)⟩

/-- Counterexample to C6 as stated for every board: on the 4x1 board with
a mine at (3, 0) and a flag at (2, 0), the cell (2, 0) is in bounds and
8-adjacent to the zero-region cell (1, 0) of the reveal of (0, 0) - it
belongs to the bordering ring that the claim says is revealed - yet the
reveal succeeds and leaves it unrevealed, because the cascade's Cell::open
is a no-op on flagged cells. -/
theorem c6_counterexample :
    zeroRegion c6cStart (0, 0) (1, 0) ∧ adj8 (1, 0) (2, 0) ∧
    (get_2d c6cStart.cells 2 0).isOk = true ∧
    open_ 9 c6cStart 0 0 = some c6cOut ∧ c6cOut.2 = .ok () ∧
    openedAt c6cOut.1 2 0 = false :=
  ⟨Relation.ReflTransGen.single
      ⟨by decide, by decide, ⟨by decide, by decide, by decide, by decide, by decide⟩⟩,
    ⟨by decide, by decide, by decide, by decide, by decide⟩,
    by decide, by decide, by decide, by decide⟩

/-- C7 (amended): with the products computed in u16 wrapping arithmetic as
the code does, generation fails with TooManyMines whenever
width*height < mineCount*10 (both mod 65536), and otherwise, when both
width < 8 and height < 8, it fails with FieldTooSmall(width, height); the
density check runs first, so a board that is both too small and too dense
is reported as TooManyMines, not FieldTooSmall. -/
theorem c7_generation_validation_order :
    ∀ width height mines : Nat,
      ((width * height) % 65536 < (mines * 10) % 65536 →
        generate_cells_checks width height mines = .error .TooManyMines) ∧
      (¬ (width * height) % 65536 < (mines * 10) % 65536 → width < 8 → height < 8 →
        generate_cells_checks width height mines = .error (.FieldTooSmall width height)) := by
  intro w h m
  refine ⟨fun hlt => ?_, fun hge hw hh => ?_⟩
  · simp [generate_cells_checks, hlt]
  · simp [generate_cells_checks, hge, hw, hh]

theorem c7_generation_validation_order_witness :
    generate_cells_checks 3 3 1 = .error .TooManyMines ∧
    generate_cells_checks 7 7 0 = .error (.FieldTooSmall 7 7) :=
  ⟨(c7_generation_validation_order 3 3 1).1 (by decide),
   (c7_generation_validation_order 7 7 0).2 (by decide) (by decide) (by decide)⟩

/-- C7 counterexample: the claim says that for every width < 8, height < 8
and every mineCount generation fails with FieldTooSmall(width, height); but
at width = 7, height = 7, mineCount = 5 the density check fires first
(49 < 50) and generation fails with TooManyMines instead. -/
theorem c7_counterexample :
    generate_cells_checks 7 7 5 = .error .TooManyMines ∧
    generate_cells_checks 7 7 5 ≠ .error (.FieldTooSmall 7 7) := by decide

/-- C8: is_won is true iff every Water (non-mine) cell is opened; the
condition mentions only non-mine cells, so the flag and reveal state of
mines cannot affect the result. -/
theorem c8_is_won_iff_all_water_opened (f : Field) :
    is_won f = true ↔ ∀ col ∈ f.cells, ∀ c ∈ col, c.value = .Water → c.opened = true := by
  unfold is_won
  rw [List.all_eq_true]
  refine forall₂_congr fun col _ => ?_
  rw [List.all_eq_true]
  refine forall₂_congr fun c _ => ?_
  constructor
  · intro hb hw
    cases hcv : c.opened with
    | true => rfl
    | false => rw [hw, hcv] at hb; simp at hb
  · intro hb
    cases hcv : c.value with
    | Water => simp [hcv, hb hcv]
    | Mine => simp [hcv]

/-- C9 (amended): if chord fails with MineOpened, the board is not rolled
back: every cell revealed before the call stays revealed, flags are
untouched, and some window neighbour that was an unflagged, unrevealed mine
at the start of the call ends marked revealed. The scan itself stops at
that mine, but a neighbour after the mine in scan order can nevertheless
end revealed, because the cascade of an earlier scanned neighbour may have
revealed it within the same call, so the original final clause of the
claim does not hold. -/
theorem c9_chord_mine_no_rollback :
    ∀ fuel f x y out, chord fuel f x y = some out → out.2 = .error .MineOpened →
      (∀ i j, openedAt f i j = true → openedAt out.1 i j = true) ∧
      (∀ i j, flaggedAt out.1 i j = flaggedAt f i j) ∧
      ∃ p ∈ windowList x y, valueAt f p.1 p.2 = some .Mine ∧
        flaggedAt f p.1 p.2 = false ∧ openedAt f p.1 p.2 = false ∧
        openedAt out.1 p.1 p.2 = true := by
  intro fuel f x y out h he
  have hev := chord_evolves h
  refine ⟨fun i j => hev.openedAt_mono i j, fun i j => hev.flaggedAt_eq i j, ?_⟩
  rw [chord_eq] at h
  split at h
  · rename_i e heq
    cases h
    have hoob := get_2d_error heq
    have he2 : e = .MineOpened := by injection he
    rw [hoob] at he2
    cases he2
  · rename_i c' hg
    split at h
    · cases h
      simp at he
    · rename_i hnop
      have hcop : c'.opened = true := by
        cases hcv : c'.opened with
        | true => rfl
        | false => rw [hcv] at hnop; simp at hnop
      split at h
      · rename_i e heq
        cases h
        have hoob := get_2d_error heq
        have he2 : e = .MineOpened := by injection he
        rw [hoob] at he2
        cases he2
      · split at h
        · cases h
          simp at he
        · split at h
          · cases h
          · rename_i f1 e ho
            cases h
            have he2 : e = .MineOpened := by injection he
            obtain ⟨_, _, _, hof, _⟩ :=
              open_error fuel f x y (f1, .error e) ho e rfl c' hg
            unfold openedAt at hof
            rw [hg] at hof
            have hofc : c'.opened = false := hof
            rw [hcop] at hofc
            cases hofc
          · rename_i f1 u ho
            have hev1 := open_evolves ho
            obtain ⟨p, hp, hv, hf, hof, hoo⟩ :=
              chordLoop_mineopened (windowList x y) fuel f1 out h he
            refine ⟨p, hp, ?_, ?_, ?_, hoo⟩
            · rw [← hev1.valueAt_eq p.1 p.2]
              exact hv
            · rw [← hev1.flaggedAt_eq p.1 p.2]
              exact hf
            · exact hev1.openedAt_back p.1 p.2 hof

/-- C9 counterexample: on the 4x4 c9 board (mine at (2, 0), flag at (1, 0),
centre (1, 1) revealed and satisfied), chord(1, 1) fails with MineOpened at
the mine (2, 0), yet the neighbour (2, 1), which comes after (2, 0) in the
scan order (x ascending, then y), is newly revealed by that very call: the
earlier scanned neighbour (0, 0) has number 0 and its cascade reveals
(2, 1) before the scan reaches the mine. The claim says neighbours after
the mine in scan order are not revealed by the call. -/
theorem c9_counterexample :
    openedAt c9Start 1 1 = true ∧
    numberAt c9Start 1 1 = some (neighbourCount c9Start.cells 1 1 (fun c => c.flagged)) ∧
    chord 99 c9Start 1 1 = some c9Out ∧ c9Out.2 = .error .MineOpened ∧
    valueAt c9Start 2 0 = some .Mine ∧
    openedAt c9Start 2 1 = false ∧ openedAt c9Out.1 2 1 = true := by decide

theorem c9_chord_mine_no_rollback_witness :
    (chord 99 c9Start 1 1 = some c9Out ∧ c9Out.2 = .error .MineOpened) ∧
    ((∀ i j, openedAt c9Start i j = true → openedAt c9Out.1 i j = true) ∧
      (∀ i j, flaggedAt c9Out.1 i j = flaggedAt c9Start i j) ∧
      ∃ p ∈ windowList 1 1, valueAt c9Start p.1 p.2 = some .Mine ∧
        flaggedAt c9Start p.1 p.2 = false ∧ openedAt c9Start p.1 p.2 = false ∧
        openedAt c9Out.1 p.1 p.2 = true) :=
  ⟨⟨by decide, by decide⟩,
   c9_chord_mine_no_rollback 99 c9Start 1 1 c9Out (by decide) (by decide)⟩

/-- C10: the density check of generate_cells compares width*height and
mineCount*10 as u16 products, wrapping modulo 65536. For width = height =
256 the true product 65536 wraps to 0, so every mine count of at least 1
whose true density is below 10 percent (mineCount*10 < 65536) is rejected
with TooManyMines even though the density constraint truly holds. -/
theorem c10_u16_wrap_rejects_large_boards :
    ∀ mines : Nat, 1 ≤ mines → mines * 10 < 256 * 256 →
      generate_cells_checks 256 256 mines = .error .TooManyMines := by
  intro m h1 h2
  have hwh : (256 * 256) % 65536 = 0 := by norm_num
  have hm : (m * 10) % 65536 = m * 10 := Nat.mod_eq_of_lt (by omega)
  unfold generate_cells_checks
  rw [if_pos]
  rw [hwh, hm]
  omega

theorem c10_u16_wrap_rejects_large_boards_witness :
    1 ≤ 100 ∧ 100 * 10 < 256 * 256 ∧
      generate_cells_checks 256 256 100 = .error .TooManyMines :=
  ⟨by decide, by decide, c10_u16_wrap_rejects_large_boards 100 (by decide) (by decide)⟩

end Minesweep
